import Mathlib

/-!
# UI-Test-Template-Runner: verification of the execution and visual-diff engine

A shallow embedding of the repository's core: the visual comparator wrapped by
the `compare_screenshot` step (`src/runner/executor.ts`, concatenated into
`src/src/runner/reporter.ts` in this snapshot), the secondary failure-path
visual enrichment and the retry/fan-out/concurrency scheduler
(`src/src/runner/test-runner.ts`), the placeholder resolver and step dispatch
(`StepExecutor.resolveParam` / `StepExecutor.execute`), and the baseline
approval workflow (`src/src/cli/approve.ts`).

Conventions of the embedding:
- PNG rasters are records of width, height and a pixel list (one entry per
  RGBA pixel; the byte length of the JS buffer is four times our list length,
  so all length comparisons agree after dividing by four).
- The per-pixel perceptual metric of the external `pixelmatch` library is
  abstracted as a parameter `delta`; the library's size guard and its
  count-above-threshold decision are modelled below (`pixelmatchCount`).
- Filesystem writes and step verdicts are events in an ordered list, so
  "persisted before the step fails" is a statement about list order.
- The scheduler's asynchronous control flow is modelled as event traces
  (context open/close, step execution, result recording); concurrent batch
  execution is modelled as an arbitrary interleaving of the member traces.
-/

namespace UIRunner

/-- One RGBA pixel of a decoded PNG. -/
structure Px where
  r : Nat
  g : Nat
  b : Nat
  a : Nat
deriving DecidableEq, Repr

/-- A decoded PNG raster as produced by `PNG.sync.read`: dimensions plus the
pixel data.  `data.length` models `data.length / 4` of the JS byte buffer. -/
structure PNGImage where
  width : Nat
  height : Nat
  data : List Px
deriving DecidableEq, Repr

/-- Modelled from the spec: the external `pixelmatch` library invoked by both
comparison sites with `\x7b threshold: 0.1 \x7d` (spec §4.2: "per-pixel
perceptual difference against a fixed tolerance threshold (0.1 ...); any pixel
whose computed difference exceeds the threshold is counted").  The perceptual
metric itself is abstracted as `delta`; the library's documented guards are
kept: it raises when the two data buffers have different lengths, or when the
supplied width and height do not match the first buffer.  The repository
always passes the *baseline's* width and height. -/
def pixelmatchCount (delta : Px → Px → ℚ) (threshold : ℚ)
    (img1 img2 : PNGImage) : Except String Nat :=
  if img1.data.length ≠ img2.data.length then
    .error "Image sizes do not match."
  else if img1.data.length ≠ img1.width * img1.height then
    .error "Image data size does not match width/height."
  else
    .ok ((img1.data.zip img2.data).countP (fun pq => decide (threshold < delta pq.1 pq.2)))

/-- An ordered filesystem/verdict event of one `compare_screenshot` step. -/
inductive FsEv where
  | writeBaseline
  | writeDiff
  | writeActual
  | removeActual
  | stepPass
  | stepFail (msg : String)
deriving DecidableEq, Repr

/-- `StepExecutor.execute`, case `compare_screenshot` (executor source,
`src/src/runner/reporter.ts` lines 326-374), as the ordered event list it
performs.  `baseline?` is the decoded baseline when `fs.pathExists
baselinePath` held (`none` = first run), `actualExists` whether an "actual"
image for the snapshot name is currently on disk, `candidate` the fresh
screenshot.  A raised error from `pixelmatch` propagates as a failing step;
the `Step failed: compare_screenshot - ` wrapping happens in `executeStep`
below. -/
def compareScreenshot (delta : Px → Px → ℚ) (baseline? : Option PNGImage)
    (actualExists : Bool) (candidate : PNGImage) : List FsEv :=
  match baseline? with
  | none => [.writeBaseline, .stepPass]
  | some img1 =>
    match pixelmatchCount delta ((1 : ℚ) / 10) img1 candidate with
    | .error e => [.stepFail e]
    | .ok numDiffPixels =>
      if numDiffPixels > 0 then
        [.writeDiff, .writeActual,
         .stepFail ("Visual regression detected: " ++ toString numDiffPixels ++
           " pixels differ. Run \'npm run baseline:approve\' to accept changes.")]
      else if actualExists then [.removeActual, .stepPass]
      else [.stepPass]

/-- Whether the event list of a comparison ends in a raised error. -/
def stepFailed (t : List FsEv) : Bool :=
  t.any (fun e => match e with | .stepFail _ => true | _ => false)

/-- The "actual" image's existence after the events ran, in order, starting
from `before` (tracks `fs.writeFile actualPath` / `fs.remove actualPath`). -/
def pendingAfter (t : List FsEv) (before : Bool) : Bool :=
  t.foldl (fun st e =>
    match e with
    | .writeActual => true
    | .removeActual => false
    | _ => st) before

/-- The secondary failure-path enrichment (`src/src/runner/test-runner.ts`
lines 170-204): when a run fails non-visually and the row carries a snapshot
name, the baseline (when present) is compared against the failure screenshot;
dimensions are checked first and the whole block is wrapped in a `try` whose
errors are swallowed.  Returns `some n` exactly when a diff image was written
(`n > 0` differing pixels), `none` otherwise. -/
def enrichVisualDiff (delta : Px → Px → ℚ) (baseline? : Option PNGImage)
    (candidate : PNGImage) : Option Nat :=
  match baseline? with
  | none => none
  | some img1 =>
    if candidate.width = img1.width ∧ candidate.height = img1.height then
      match pixelmatchCount delta ((1 : ℚ) / 10) img1 candidate with
      | .error _ => none
      | .ok numDiffPixels => if numDiffPixels > 0 then some numDiffPixels else none
    else none

/-- One decision of the approval workflow prompt (`approve.ts`). -/
inductive Decision where
  | approve
  | reject
  | skip
deriving DecidableEq, Repr

/-- The filesystem effect of one decision in `approveBaselines`
(`src/src/cli/approve.ts` lines 48-56): given the current baseline for the
snapshot name and the pending actual image, returns (new baseline contents,
remaining actual file).  `approve` is `fs.move(actualPath, baselinePath,
\x7b overwrite: true \x7d)`, `reject` is `fs.remove(actualPath)`, `skip`
touches nothing. -/
def applyDecision (d : Decision) (baseline? : Option PNGImage)
    (actual : PNGImage) : Option PNGImage × Option PNGImage :=
  match d with
  | .approve => (some actual, none)
  | .reject => (baseline?, none)
  | .skip => (baseline?, some actual)

/-- The whole `approveBaselines` loop (`src/src/cli/approve.ts` lines 28-57):
iterates the pending actual images in order, applies the user's decision for
each immediately, and returns the final baseline store together with the
actual images still pending.  `verdict` is the user's answer per snapshot
name; `baselines` maps a snapshot name to the stored baseline image. -/
def approveBaselines (verdict : String → Decision)
    (pending : List (String × PNGImage)) (baselines : String → Option PNGImage) :
    (String → Option PNGImage) × List (String × PNGImage) :=
  match pending with
  | [] => (baselines, [])
  | (name, img) :: rest =>
    let st := applyDecision (verdict name) (baselines name) img
    let baselines2 : String → Option PNGImage :=
      fun k => if k = name then st.1 else baselines k
    let tailRun := approveBaselines verdict rest baselines2
    (tailRun.1,
      (match st.2 with
       | some kept => [(name, kept)]
       | none => []) ++ tailRun.2)

/-- A parameter mapping (a JS string-keyed record viewed as its key-to-value
map; `none` models an absent key / `undefined`). -/
def ParamMap : Type := String → Option String

/-- JS `String.prototype.startsWith`, over the character list. -/
def jsStartsWith (s pre : String) : Bool :=
  pre.data.isPrefixOf s.data

/-- JS `String.prototype.endsWith`, over the character list. -/
def jsEndsWith (s suf : String) : Bool :=
  suf.data.isSuffixOf s.data

/-- JS `s.slice(n)` for `n ≥ 0`: drop the first `n` characters. -/
def jsDrop (s : String) (n : Nat) : String :=
  ⟨s.data.drop n⟩

/-- The tail trim of JS `s.slice(a, -n)`: drop the last `n` characters. -/
def jsDropRight (s : String) (n : Nat) : String :=
  ⟨s.data.take (s.data.length - n)⟩

/-- Worker for `jsSplit`: split a character list at a separator character. -/
def splitOnCharAux (c : Char) : List Char → List (List Char)
  | [] => [[]]
  | x :: rest =>
    match splitOnCharAux c rest with
    | [] => [[]]
    | g :: gs => if x = c then [] :: g :: gs else (x :: g) :: gs

/-- JS `s.split(sep)` for a one-character separator. -/
def jsSplit (s : String) (sep : Char) : List String :=
  (splitOnCharAux sep s.data).map (fun g => String.mk g)

/-- `StepExecutor.resolveParam` (executor source lines 390-413): a value
exactly of the shape `\x7b\x7b...\x7d\x7d` is a placeholder; an
`env.`-prefixed key resolves from the process environment and throws when the
variable is undefined; any other key resolves from the parameter mapping with
`""` substituted for absent keys; everything else passes through unchanged. -/
def resolveParam (env : ParamMap) (params : ParamMap) (value : String) :
    Except String String :=
  if ¬ (jsStartsWith value "\x7b\x7b" && jsEndsWith value "\x7d\x7d") then
    .ok value
  else
    let key := jsDropRight (jsDrop value 2) 2
    if jsStartsWith key "env." then
      let envVar := jsDrop key 4
      match env envVar with
      | none =>
        .error ("Environment variable " ++ envVar ++
          " is not defined. Please set it in your .env file.")
      | some envValue => .ok envValue
    else
      match params key with
      | none => .ok ""
      | some v => .ok v

/-- `step.params.map(p => this.resolveParam(p, params))` — a thrown resolution
error escapes the `map`, so the first failing parameter aborts resolution. -/
def resolveAll (env : ParamMap) (params : ParamMap) :
    List String → Except String (List String)
  | [] => .ok []
  | v :: rest =>
    match resolveParam env params v with
    | .error e => .error e
    | .ok r =>
      match resolveAll env params rest with
      | .error e => .error e
      | .ok rs => .ok (r :: rs)

/-- A template step: an action name and positional parameter expressions. -/
structure StepDef where
  action : String
  params : List String
deriving DecidableEq, Repr

/-- `StepExecutor.execute` (executor source lines 225-388), with the action
dispatch abstracted into `registry` (the built-in `switch` cases plus loaded
plugins, looked up by action name; spec §2 "Action Registry").  Placeholder
resolution runs before the `try`; inside the `try`, an unknown action name
throws, and every error raised inside the `try` is rewrapped as
`Step failed: (action) - (message)`. -/
def executeStep (env : ParamMap) (params : ParamMap)
    (registry : String → Option (List String → Except String Unit))
    (step : StepDef) : Except String Unit :=
  match resolveAll env params step.params with
  | .error e => .error e
  | .ok resolvedParams =>
    match
      (match registry step.action with
       | some act => act resolvedParams
       | none => .error ("Unknown action: " ++ step.action)) with
    | .error e => .error ("Step failed: " ++ step.action ++ " - " ++ e)
    | .ok u => .ok u

/-- One recorded `TestResult`, restricted to the fields the scheduler sets
differently between its PASS and FAIL sites (`reporter.addResult` calls in
`src/src/runner/test-runner.ts`). -/
structure RRecord where
  pass : Bool
  errMsg : Option String
  screenshot : Bool
deriving DecidableEq, Repr

/-- An event of one scheduler run: a browser context opened
(`browser.newContext`), a step started (`executor.execute`, tagged with the
attempt number and the step's position), the failure screenshot taken
(`page.screenshot`), a `TestResult` recorded (`reporter.addResult`), a context
closed (`context.close`). -/
inductive Ev where
  | openCtx
  | runStep (attempt : Nat) (idx : Nat)
  | shot
  | record (r : RRecord)
  | closeCtx
deriving DecidableEq, Repr

/-- The inner step loop of one attempt (`for (const step of template.steps)
\x7b await executor.execute(step, rowParams) \x7d` over the templates of the
unit, flattened): steps run in order from position `start` while `stepErr`
reports success (`none`); the first step that throws (`some e`) ends the
attempt.  Returns the positions of the steps that were started and the error,
if any.  `stepErr i` abstracts whether `executor.execute` throws on the step
at flattened position `i` (and with which message); `n` is how many steps
remain. -/
def execSteps (stepErr : Nat → Option String) : Nat → Nat → List Nat × Option String
  | _, 0 => ([], none)
  | i, n + 1 =>
    match stepErr i with
    | some e => ([i], some e)
    | none =>
      let rest := execSteps stepErr (i + 1) n
      (i :: rest.1, rest.2)

/-- The retry loop of `runSingleTest` for one run unit
(`src/src/runner/test-runner.ts` lines 109-222): `for (attempt = 0; attempt
&le; maxRetries; attempt++)`.  Each attempt opens a fresh context, runs the
steps from the first one, and either records a PASS and closes (success),
closes and retries (failure with attempts remaining), or takes a failure
screenshot, records a FAIL carrying the error, and closes (final attempt).
`stepErr a i` abstracts whether the step at flattened position `i` throws on
attempt `a`; `nSteps` is the flattened step count of the unit's templates;
`remaining` counts the attempts still allowed after the current one. -/
def runRow (stepErr : Nat → Nat → Option String) (nSteps : Nat) :
    Nat → Nat → List Ev
  | attempt, 0 =>
    match (execSteps (stepErr attempt) 0 nSteps).2 with
    | none =>
      Ev.openCtx :: ((execSteps (stepErr attempt) 0 nSteps).1.map (Ev.runStep attempt) ++
        [Ev.record ⟨true, none, false⟩, Ev.closeCtx])
    | some e =>
      Ev.openCtx :: ((execSteps (stepErr attempt) 0 nSteps).1.map (Ev.runStep attempt) ++
        [Ev.shot, Ev.record ⟨false, some e, true⟩, Ev.closeCtx])
  | attempt, rem + 1 =>
    match (execSteps (stepErr attempt) 0 nSteps).2 with
    | none =>
      Ev.openCtx :: ((execSteps (stepErr attempt) 0 nSteps).1.map (Ev.runStep attempt) ++
        [Ev.record ⟨true, none, false⟩, Ev.closeCtx])
    | some _ =>
      (Ev.openCtx :: ((execSteps (stepErr attempt) 0 nSteps).1.map (Ev.runStep attempt) ++
        [Ev.closeCtx])) ++ runRow stepErr nSteps (attempt + 1) rem

/-- One run unit executed with `maxRetries` retries: the loop entered at
attempt 0 with `maxRetries` attempts remaining. -/
def runUnit (stepErr : Nat → Nat → Option String) (nSteps maxRetries : Nat) : List Ev :=
  runRow stepErr nSteps 0 maxRetries

/-- The `TestResult`s recorded along a trace, in order. -/
def recordsOf (t : List Ev) : List RRecord :=
  t.filterMap (fun e => match e with | .record r => some r | _ => none)

/-- Contexts opened along a trace. -/
def openCount (t : List Ev) : Nat :=
  t.countP (fun e => e = Ev.openCtx)

/-- Contexts closed along a trace. -/
def closeCount (t : List Ev) : Nat :=
  t.countP (fun e => e = Ev.closeCtx)

/-- The flattened step positions started by attempt `a` along a trace, in
execution order. -/
def stepIdxs (a : Nat) (t : List Ev) : List Nat :=
  t.filterMap (fun e =>
    match e with
    | .runStep a2 i => if a2 = a then some i else none
    | _ => none)

/-- JS object spread `\x7b ...defaults, ...row \x7d`: the row's keys win. -/
def mergeSpread (defaults row : ParamMap) : ParamMap :=
  fun k => (row k).orElse (fun _ => defaults k)

/-- The data fan-out prologue of `runSingleTest` (lines 55-79): with no data
source one row of the default parameters; with a data source that loads,
each loaded row merged over the defaults (row wins); a load failure is an
error carried to the synthetic-FAIL path.  `data?` is `none` when
`config.data` is unset, otherwise the outcome of `DataLoader.loadData`. -/
def resolveDataRows (defaults : ParamMap)
    (data? : Option (Except String (List ParamMap))) :
    Except String (List ParamMap) :=
  match data? with
  | none => .ok [defaults]
  | some (.error e) => .error e
  | some (.ok loadedData) => .ok (loadedData.map (fun row => mergeSpread defaults row))

/-- The whole of `runSingleTest` for one configuration, as a trace: a failed
data load records one synthetic FAIL and returns; otherwise each row runs the
retry loop in order.  `stepErr r a i` abstracts step outcomes for row `r`,
attempt `a`, flattened step position `i`. -/
def runSingleTest (stepErr : Nat → Nat → Nat → Option String)
    (nSteps maxRetries : Nat) (defaults : ParamMap)
    (data? : Option (Except String (List ParamMap))) : List Ev :=
  match resolveDataRows defaults data? with
  | .error e =>
    [Ev.record ⟨false, some ("Failed to load data: " ++ e), false⟩]
  | .ok dataRows =>
    ((List.range dataRows.length).map
      (fun i => runUnit (stepErr i) nSteps maxRetries)).flatten

/-- Fuelled worker for `chunk` (the JS loop `for (i = 0; i &lt; length; i +=
size)`); the fuel is the list length, enough for any `size ≥ 1`. -/
def chunkAux (size : Nat) : Nat → List α → List (List α)
  | 0, _ => []
  | _, [] => []
  | fuel + 1, l => l.take size :: chunkAux size fuel (l.drop size)

/-- `chunk` (`src/src/runner/test-runner.ts` lines 35-41): split a list into
consecutive slices of `size` elements, the last possibly shorter. -/
def chunk (size : Nat) (l : List α) : List (List α) :=
  chunkAux size l.length l

/-- JS `parseInt` on a decimal argument: skip leading whitespace and an
optional sign, read leading digits, `none` for `NaN` (no leading digit). -/
def parseIntJs (s : String) : Option Int :=
  let cs := s.data.dropWhile (fun c => c.isWhitespace)
  let signed : Bool × List Char :=
    match cs with
    | '-' :: rest => (true, rest)
    | '+' :: rest => (false, rest)
    | _ => (false, cs)
  let digits := signed.2.takeWhile Char.isDigit
  if digits.isEmpty then none
  else
    let v : Nat := digits.foldl (fun acc c => acc * 10 + (c.toNat - '0'.toNat)) 0
    some (if signed.1 then -(v : Int) else (v : Int))

/-- `getConcurrency` (`src/src/runner/test-runner.ts` lines 16-23): the first
`--parallel...` argument decides; absent → 1; `=auto` → the host's logical
core count (`os.cpus().length`, passed in as `cpuCount`); otherwise
`parseInt(value) || 1`. -/
def getConcurrency (cpuCount : Nat) (args : List String) : Int :=
  match args.find? (fun a => jsStartsWith a "--parallel") with
  | none => 1
  | some parallelArg =>
    match (jsSplit parallelArg '=')[1]? with
    | none => 1
    | some value =>
      if value = "auto" then (cpuCount : Int)
      else
        match parseIntJs value with
        | none => 1
        | some 0 => 1
        | some n => n

/-- `getRetries` (`src/src/runner/test-runner.ts` lines 26-32). -/
def getRetries (args : List String) : Int :=
  match args.find? (fun a => jsStartsWith a "--retries") with
  | none => 0
  | some retriesArg =>
    match (jsSplit retriesArg '=')[1]? with
    | none => 0
    | some value =>
      match parseIntJs value with
      | none => 0
      | some 0 => 0
      | some n => n

/-- The events of run unit `i` inside a labelled batch trace. -/
def proj (i : Nat) (s : List (Nat × Ev)) : List Ev :=
  (s.filter (fun e => e.1 = i)).map Prod.snd

/-- `s` is an interleaving of the unit traces `ts` of one batch
(`Promise.all(batch.map(...))`): every event is labelled with a unit of the
batch, and unit `i`'s events, in order, are exactly its trace. -/
abbrev Interleaves (s : List (Nat × Ev)) (ts : List (List Ev)) : Prop :=
  (∀ e ∈ s, e.1 < ts.length) ∧ ∀ i < ts.length, proj i s = ts.getD i []

/-- `s` is an execution of the batched scheduler (`runTests`, lines 257-269):
the units are partitioned by `chunk K`, each batch runs as one interleaving,
and a batch finishes before the next starts (its events all precede the next
batch's). -/
def IsBatchedRun (K : Nat) (units : List (List Ev)) (s : List (Nat × Ev)) : Prop :=
  ∃ parts : List (List (Nat × Ev)),
    s = parts.flatten ∧
    parts.length = (chunk K units).length ∧
    ∀ i < parts.length, Interleaves (parts.getD i []) ((chunk K units).getD i [])

/-- Every take-prefix of the trace has at most one more context opened than
closed: the unit never holds two browser contexts at once. -/
abbrev PrefixBalanced (t : List Ev) : Prop :=
  ∀ k ≤ t.length, openCount (t.take k) ≤ closeCount (t.take k) + 1

/-! ## Comparator lemmas -/

/-- On equal-sized, well-formed rasters the pixelmatch model returns the
count of pixels whose perceptual difference exceeds the threshold. -/
lemma pixelmatchCount_ok (delta : Px → Px → ℚ) (threshold : ℚ)
    (b c : PNGImage) (hlen : b.data.length = c.data.length)
    (hwf : b.data.length = b.width * b.height) :
    pixelmatchCount delta threshold b c =
      .ok ((b.data.zip c.data).countP (fun pq => decide (threshold < delta pq.1 pq.2))) := by
  unfold pixelmatchCount
  rw [if_neg (by simp [hlen]), if_neg (by simp [hwf])]

/-- When the two buffers differ in length the pixelmatch model raises. -/
lemma pixelmatchCount_sizeErr (delta : Px → Px → ℚ) (threshold : ℚ)
    (b c : PNGImage) (hlen : b.data.length ≠ c.data.length) :
    pixelmatchCount delta threshold b c = .error "Image sizes do not match." := by
  simp [pixelmatchCount, hlen]

/-! ## C1 -/

/-- C1, counterexample.  The claim states that for every comparison of a
baseline and a candidate of differing dimensions, the pixel comparison is
skipped and no >0-pixel mismatch is reported "in both the primary
compare_screenshot step and the secondary failure-path enrichment".  In the
primary step (executor source lines 346-354) no dimension check exists: with
a 2×1 baseline and a 1×2 candidate (equal buffer length) the comparison runs
and reports a 2-pixel mismatch failure. -/
theorem primary_compare_mismatch_on_dim_diff :
    (PNGImage.mk 2 1 [⟨0, 0, 0, 255⟩, ⟨0, 0, 0, 255⟩]).width ≠
      (PNGImage.mk 1 2 [⟨255, 255, 255, 255⟩, ⟨255, 255, 255, 255⟩]).width ∧
    compareScreenshot (fun _ _ => 1)
      (some (PNGImage.mk 2 1 [⟨0, 0, 0, 255⟩, ⟨0, 0, 0, 255⟩])) false
      (PNGImage.mk 1 2 [⟨255, 255, 255, 255⟩, ⟨255, 255, 255, 255⟩]) =
      [.writeDiff, .writeActual,
       .stepFail
         "Visual regression detected: 2 pixels differ. Run \'npm run baseline:approve\' to accept changes."] := by
  refine ⟨by decide, ?_⟩
  have hok : pixelmatchCount (fun _ _ => (1 : ℚ)) ((1 : ℚ) / 10)
      (PNGImage.mk 2 1 [⟨0, 0, 0, 255⟩, ⟨0, 0, 0, 255⟩])
      (PNGImage.mk 1 2 [⟨255, 255, 255, 255⟩, ⟨255, 255, 255, 255⟩]) = .ok 2 := by
    rw [pixelmatchCount_ok (fun _ _ => (1 : ℚ)) ((1 : ℚ) / 10)
      (PNGImage.mk 2 1 [⟨0, 0, 0, 255⟩, ⟨0, 0, 0, 255⟩])
      (PNGImage.mk 1 2 [⟨255, 255, 255, 255⟩, ⟨255, 255, 255, 255⟩]) rfl rfl]
    norm_num [List.zip_cons_cons, List.countP_cons, List.countP_nil]
  simp only [compareScreenshot]
  rw [hok]
  norm_num
  decide

/-- C1, amended: only the secondary failure-path enrichment checks dimensions
and skips the comparison (reporting no diff) when they differ; the primary
`compare_screenshot` step performs no dimension check — when the two decoded
buffers differ in length the comparator raises (the step fails with the
raised error, with nothing persisted, rather than with a measured >0-pixel
mismatch), and when the dimensions differ but the buffer lengths coincide the
pixel comparison proceeds and can report a >0-pixel mismatch (see the
counterexample). -/
theorem dim_mismatch_amended (delta : Px → Px → ℚ) (b c : PNGImage) (ae : Bool) :
    (¬ (c.width = b.width ∧ c.height = b.height) →
      enrichVisualDiff delta (some b) c = none) ∧
    (b.data.length ≠ c.data.length →
      compareScreenshot delta (some b) ae c = [.stepFail "Image sizes do not match."]) := by
  constructor
  · intro h
    simp [enrichVisualDiff, h]
  · intro h
    simp [compareScreenshot, pixelmatchCount_sizeErr delta _ b c h]

/-- Witness for `dim_mismatch_amended` at a 2×1 baseline against a 1×3
candidate. -/
theorem dim_mismatch_amended_witness :
    enrichVisualDiff (fun _ _ => 1)
      (some (PNGImage.mk 2 1 [⟨0, 0, 0, 255⟩, ⟨0, 0, 0, 255⟩]))
      (PNGImage.mk 1 3 [⟨0, 0, 0, 255⟩, ⟨0, 0, 0, 255⟩, ⟨0, 0, 0, 255⟩]) = none ∧
    compareScreenshot (fun _ _ => 1)
      (some (PNGImage.mk 2 1 [⟨0, 0, 0, 255⟩, ⟨0, 0, 0, 255⟩])) true
      (PNGImage.mk 1 3 [⟨0, 0, 0, 255⟩, ⟨0, 0, 0, 255⟩, ⟨0, 0, 0, 255⟩]) =
      [.stepFail "Image sizes do not match."] :=
  ⟨(dim_mismatch_amended (fun _ _ => 1) _ _ true).1 (by decide),
   (dim_mismatch_amended (fun _ _ => 1) _ _ true).2 (by decide)⟩

/-! ## C6 -/

/-- C6: for equal-sized well-formed rasters, the comparator counts the pixels
whose perceptual difference exceeds the fixed threshold 1/10, and the step
fails (with the mismatch error) if and only if that count is strictly
positive; a count of zero passes the step. -/
theorem compare_verdict_iff_count_pos (delta : Px → Px → ℚ) (b c : PNGImage)
    (ae : Bool) (hw : b.width = c.width) (hh : b.height = c.height)
    (hwfb : b.data.length = b.width * b.height)
    (hwfc : c.data.length = c.width * c.height) :
    pixelmatchCount delta ((1 : ℚ) / 10) b c =
      .ok ((b.data.zip c.data).countP (fun pq => decide ((1 : ℚ) / 10 < delta pq.1 pq.2))) ∧
    (stepFailed (compareScreenshot delta (some b) ae c) = true ↔
      0 < (b.data.zip c.data).countP (fun pq => decide ((1 : ℚ) / 10 < delta pq.1 pq.2))) ∧
    ((b.data.zip c.data).countP (fun pq => decide ((1 : ℚ) / 10 < delta pq.1 pq.2)) = 0 →
      compareScreenshot delta (some b) ae c =
        if ae then [.removeActual, .stepPass] else [.stepPass]) := by
  have hlen : b.data.length = c.data.length := by rw [hwfb, hwfc, hw, hh]
  have hok := pixelmatchCount_ok delta ((1 : ℚ) / 10) b c hlen hwfb
  set n := (b.data.zip c.data).countP (fun pq => decide ((1 : ℚ) / 10 < delta pq.1 pq.2)) with hn
  have hcs : compareScreenshot delta (some b) ae c =
      if n > 0 then
        [.writeDiff, .writeActual,
         .stepFail ("Visual regression detected: " ++ toString n ++
           " pixels differ. Run \'npm run baseline:approve\' to accept changes.")]
      else if ae then [.removeActual, .stepPass] else [.stepPass] := by
    simp only [compareScreenshot]
    rw [hok]
  refine ⟨hok, ?_, ?_⟩
  · rcases Nat.eq_zero_or_pos n with h0 | hpos
    · rw [hcs, if_neg (by omega), h0]
      cases ae <;> simp [stepFailed]
    · rw [hcs, if_pos hpos]
      simp [stepFailed, hpos]
  · intro h0
    rw [hcs, if_neg (by omega)]

/-- Witness for `compare_verdict_iff_count_pos`: a 1×1 baseline against a
differing 1×1 candidate fails, and an identical candidate passes, removing a
stale actual image. -/
theorem compare_verdict_iff_count_pos_witness :
    stepFailed (compareScreenshot (fun _ _ => 1)
      (some (PNGImage.mk 1 1 [⟨0, 0, 0, 255⟩])) false
      (PNGImage.mk 1 1 [⟨255, 255, 255, 255⟩])) = true ∧
    compareScreenshot (fun p q => if p = q then 0 else 1)
      (some (PNGImage.mk 1 1 [⟨0, 0, 0, 255⟩])) true
      (PNGImage.mk 1 1 [⟨0, 0, 0, 255⟩]) = [.removeActual, .stepPass] := by
  constructor
  · rw [(compare_verdict_iff_count_pos (fun _ _ => 1)
      (PNGImage.mk 1 1 [⟨0, 0, 0, 255⟩]) (PNGImage.mk 1 1 [⟨255, 255, 255, 255⟩])
      false rfl rfl rfl rfl).2.1]
    norm_num [List.zip_cons_cons, List.countP_cons, List.countP_nil]
  · have h := (compare_verdict_iff_count_pos (fun p q => if p = q then 0 else 1)
      (PNGImage.mk 1 1 [⟨0, 0, 0, 255⟩]) (PNGImage.mk 1 1 [⟨0, 0, 0, 255⟩])
      true rfl rfl rfl rfl).2.2
    rw [h (by norm_num [List.zip_cons_cons, List.countP_cons, List.countP_nil])]
    rfl

/-! ## C7 -/

/-- C7: with no existing baseline the comparator is not consulted for the
verdict — the result is the same fixed event list for every perceptual metric
and every candidate — the candidate is persisted as the new baseline, and the
step passes (the executor logs the "Baseline not found" warning and breaks
without raising). -/
theorem first_run_saves_baseline (delta delta2 : Px → Px → ℚ) (ae : Bool)
    (candidate : PNGImage) :
    compareScreenshot delta none ae candidate = [.writeBaseline, .stepPass] ∧
    stepFailed (compareScreenshot delta none ae candidate) = false ∧
    compareScreenshot delta2 none ae candidate = compareScreenshot delta none ae candidate := by
  refine ⟨rfl, rfl, rfl⟩

/-! ## C8 -/

/-- C8: against an existing baseline, when the comparison yields a verdict:
on Mismatch the diff and then the actual image are persisted before the step
fails; on Match any stale actual image is removed and the step passes; in
either case the actual image exists after the step if and only if the
comparison was a Mismatch (the pending-approval set tracks exactly the
currently failing snapshot names). -/
theorem mismatch_persists_match_clears (delta : Px → Px → ℚ) (b c : PNGImage)
    (ae : Bool) (n : Nat)
    (hok : pixelmatchCount delta ((1 : ℚ) / 10) b c = .ok n) :
    (0 < n → compareScreenshot delta (some b) ae c =
      [.writeDiff, .writeActual,
       .stepFail ("Visual regression detected: " ++ toString n ++
         " pixels differ. Run \'npm run baseline:approve\' to accept changes.")]) ∧
    (n = 0 → compareScreenshot delta (some b) ae c =
      if ae then [.removeActual, .stepPass] else [.stepPass]) ∧
    pendingAfter (compareScreenshot delta (some b) ae c) ae = decide (0 < n) ∧
    stepFailed (compareScreenshot delta (some b) ae c) = decide (0 < n) := by
  have hcs : compareScreenshot delta (some b) ae c =
      if n > 0 then
        [.writeDiff, .writeActual,
         .stepFail ("Visual regression detected: " ++ toString n ++
           " pixels differ. Run \'npm run baseline:approve\' to accept changes.")]
      else if ae then [.removeActual, .stepPass] else [.stepPass] := by
    simp only [compareScreenshot]
    rw [hok]
  rcases Nat.eq_zero_or_pos n with h0 | hpos
  · subst h0
    rw [hcs, if_neg (by omega)]
    refine ⟨fun h => absurd h (by omega), fun _ => rfl, ?_, ?_⟩ <;>
      cases ae <;> simp [pendingAfter, stepFailed]
  · rw [hcs, if_pos hpos]
    refine ⟨fun _ => rfl, fun h => absurd h (by omega), ?_, ?_⟩ <;>
      simp [pendingAfter, stepFailed, hpos]

/-- Witness for `mismatch_persists_match_clears` at a 1×1 mismatch and a 1×1
match. -/
theorem mismatch_persists_match_clears_witness :
    pendingAfter (compareScreenshot (fun _ _ => 1)
      (some (PNGImage.mk 1 1 [⟨0, 0, 0, 255⟩])) false
      (PNGImage.mk 1 1 [⟨255, 255, 255, 255⟩])) false = true ∧
    pendingAfter (compareScreenshot (fun _ _ => 0)
      (some (PNGImage.mk 1 1 [⟨0, 0, 0, 255⟩])) true
      (PNGImage.mk 1 1 [⟨0, 0, 0, 255⟩])) true = false := by
  constructor
  · rw [(mismatch_persists_match_clears (fun _ _ => 1)
      (PNGImage.mk 1 1 [⟨0, 0, 0, 255⟩]) (PNGImage.mk 1 1 [⟨255, 255, 255, 255⟩])
      false 1 (by
        rw [pixelmatchCount_ok (fun _ _ => (1 : ℚ)) ((1 : ℚ) / 10)
          (PNGImage.mk 1 1 [⟨0, 0, 0, 255⟩]) (PNGImage.mk 1 1 [⟨255, 255, 255, 255⟩]) rfl rfl]
        norm_num [List.zip_cons_cons, List.countP_cons, List.countP_nil])).2.2.1]
    decide
  · rw [(mismatch_persists_match_clears (fun _ _ => 0)
      (PNGImage.mk 1 1 [⟨0, 0, 0, 255⟩]) (PNGImage.mk 1 1 [⟨0, 0, 0, 255⟩])
      true 0 (by
        rw [pixelmatchCount_ok (fun _ _ => (0 : ℚ)) ((1 : ℚ) / 10)
          (PNGImage.mk 1 1 [⟨0, 0, 0, 255⟩]) (PNGImage.mk 1 1 [⟨0, 0, 0, 255⟩]) rfl rfl]
        norm_num [List.zip_cons_cons, List.countP_cons, List.countP_nil])).2.2.1]
    decide

/-! ## C9 -/

/-- A snapshot name no pending item carries keeps its baseline. -/
lemma approveBaselines_untouched (v : String → Decision) :
    ∀ (pending : List (String × PNGImage)) (baselines : String → Option PNGImage)
      (name : String), name ∉ pending.map Prod.fst →
      (approveBaselines v pending baselines).1 name = baselines name := by
  intro pending
  induction pending with
  | nil => intro baselines name _; rfl
  | cons hd tl ih =>
    intro baselines name h
    obtain ⟨hd1, hd2⟩ := hd
    simp only [List.map_cons, List.mem_cons, not_or] at h
    simp only [approveBaselines]
    rw [ih _ _ h.2]
    simp [h.1]

/-- The baseline a pending item's snapshot name ends with is exactly the
effect of that item's decision on its prior baseline. -/
lemma approveBaselines_mem (v : String → Decision) :
    ∀ (pending : List (String × PNGImage)) (baselines : String → Option PNGImage)
      (name : String) (img : PNGImage), (pending.map Prod.fst).Nodup →
      (name, img) ∈ pending →
      (approveBaselines v pending baselines).1 name =
        (applyDecision (v name) (baselines name) img).1 := by
  intro pending
  induction pending with
  | nil => intro _ _ _ _ hmem; cases hmem
  | cons hd tl ih =>
    intro baselines name img hnd hmem
    obtain ⟨hd1, hd2⟩ := hd
    simp only [List.map_cons, List.nodup_cons] at hnd
    rcases List.mem_cons.mp hmem with heq | htl
    · obtain ⟨h1, h2⟩ := Prod.mk.injEq .. ▸ heq
      subst h1
      subst h2
      simp only [approveBaselines]
      rw [approveBaselines_untouched v tl _ name hnd.1]
      simp
    · have hne : name ≠ hd1 := by
        intro hcontra
        exact hnd.1 (hcontra ▸ (List.mem_map.mpr ⟨(name, img), htl, rfl⟩))
      simp only [approveBaselines]
      rw [ih _ name img hnd.2 htl]
      simp [hne]

/-- The items still pending after the workflow are exactly those skipped. -/
lemma approveBaselines_pending (v : String → Decision) :
    ∀ (pending : List (String × PNGImage)) (baselines : String → Option PNGImage),
      (approveBaselines v pending baselines).2 =
        pending.filter (fun e => decide (v e.1 = Decision.skip)) := by
  intro pending
  induction pending with
  | nil => intro _; rfl
  | cons hd tl ih =>
    intro baselines
    obtain ⟨hd1, hd2⟩ := hd
    simp only [approveBaselines]
    rw [ih]
    rcases hv : v hd1 with _ | _ | _ <;>
      simp [applyDecision, List.filter_cons, hv]

/-- C9: each pending actual image receives exactly one decision, applied
immediately: Approve overwrites the baseline under the same snapshot name
with the actual image and removes the item from the pending set; Reject
deletes the actual image and leaves the baseline unchanged; Skip leaves both
untouched so the item stays pending; snapshot names with no pending item are
never affected, and the final pending set is exactly the skipped items. -/
theorem approval_decisions (v : String → Decision)
    (pending : List (String × PNGImage)) (baselines : String → Option PNGImage)
    (hnd : (pending.map Prod.fst).Nodup) :
    (∀ b a, applyDecision .approve b a = (some a, none)) ∧
    (∀ b a, applyDecision .reject b a = (b, none)) ∧
    (∀ b a, applyDecision .skip b a = (b, some a)) ∧
    (∀ name img, (name, img) ∈ pending →
      (v name = .approve →
        (approveBaselines v pending baselines).1 name = some img ∧
        ∀ i, (name, i) ∉ (approveBaselines v pending baselines).2) ∧
      (v name = .reject →
        (approveBaselines v pending baselines).1 name = baselines name ∧
        ∀ i, (name, i) ∉ (approveBaselines v pending baselines).2) ∧
      (v name = .skip →
        (approveBaselines v pending baselines).1 name = baselines name ∧
        (name, img) ∈ (approveBaselines v pending baselines).2)) ∧
    (∀ name, name ∉ pending.map Prod.fst →
      (approveBaselines v pending baselines).1 name = baselines name) ∧
    (approveBaselines v pending baselines).2 =
      pending.filter (fun e => decide (v e.1 = Decision.skip)) := by
  refine ⟨fun _ _ => rfl, fun _ _ => rfl, fun _ _ => rfl, ?_,
    fun name h => approveBaselines_untouched v pending baselines name h,
    approveBaselines_pending v pending baselines⟩
  intro name img hmem
  have hbase := approveBaselines_mem v pending baselines name img hnd hmem
  refine ⟨fun hv => ⟨?_, ?_⟩, fun hv => ⟨?_, ?_⟩, fun hv => ⟨?_, ?_⟩⟩
  · rw [hbase, hv]; rfl
  · intro i hi
    rw [approveBaselines_pending] at hi
    have := List.of_mem_filter hi
    simp [hv] at this
  · rw [hbase, hv]; rfl
  · intro i hi
    rw [approveBaselines_pending] at hi
    have := List.of_mem_filter hi
    simp [hv] at this
  · rw [hbase, hv]; rfl
  · rw [approveBaselines_pending]
    exact List.mem_filter.mpr ⟨hmem, by simp [hv]⟩

/-- Witness for `approval_decisions`: three pending items, one approved, one
rejected, one skipped, against an empty baseline store. -/
theorem approval_decisions_witness :
    (approveBaselines
      (fun n => if n = "home" then .approve else if n = "nav" then .reject else .skip)
      [("home", PNGImage.mk 1 1 [⟨0, 0, 0, 255⟩]),
       ("nav", PNGImage.mk 1 1 [⟨1, 1, 1, 255⟩]),
       ("foot", PNGImage.mk 1 1 [⟨2, 2, 2, 255⟩])]
      (fun _ => none)).1 "home" = some (PNGImage.mk 1 1 [⟨0, 0, 0, 255⟩]) ∧
    (approveBaselines
      (fun n => if n = "home" then .approve else if n = "nav" then .reject else .skip)
      [("home", PNGImage.mk 1 1 [⟨0, 0, 0, 255⟩]),
       ("nav", PNGImage.mk 1 1 [⟨1, 1, 1, 255⟩]),
       ("foot", PNGImage.mk 1 1 [⟨2, 2, 2, 255⟩])]
      (fun _ => none)).1 "nav" = none ∧
    (approveBaselines
      (fun n => if n = "home" then .approve else if n = "nav" then .reject else .skip)
      [("home", PNGImage.mk 1 1 [⟨0, 0, 0, 255⟩]),
       ("nav", PNGImage.mk 1 1 [⟨1, 1, 1, 255⟩]),
       ("foot", PNGImage.mk 1 1 [⟨2, 2, 2, 255⟩])]
      (fun _ => none)).2 =
      [("foot", PNGImage.mk 1 1 [⟨2, 2, 2, 255⟩])] := by
  have h := approval_decisions
    (fun n => if n = "home" then .approve else if n = "nav" then .reject else .skip)
    [("home", PNGImage.mk 1 1 [⟨0, 0, 0, 255⟩]),
     ("nav", PNGImage.mk 1 1 [⟨1, 1, 1, 255⟩]),
     ("foot", PNGImage.mk 1 1 [⟨2, 2, 2, 255⟩])]
    (fun _ => none) (by decide)
  refine ⟨?_, ?_, ?_⟩
  · exact ((h.2.2.2.1 "home" (PNGImage.mk 1 1 [⟨0, 0, 0, 255⟩]) (by decide)).1 (by decide)).1
  · exact ((h.2.2.2.1 "nav" (PNGImage.mk 1 1 [⟨1, 1, 1, 255⟩]) (by decide)).2.1 (by decide)).1
  · rw [h.2.2.2.2.2]
    decide

/-! ## Scheduler trace lemmas -/

/-- Unfolding `runRow` when the current attempt succeeds. -/
lemma runRow_succ (f : Nat → Nat → Option String) (n a r : Nat)
    (h : (execSteps (f a) 0 n).2 = none) :
    runRow f n a r = Ev.openCtx ::
      ((execSteps (f a) 0 n).1.map (Ev.runStep a) ++
        [Ev.record ⟨true, none, false⟩, Ev.closeCtx]) := by
  cases r <;> rw [runRow] <;> rw [h]

/-- Unfolding `runRow` when the last allowed attempt fails. -/
lemma runRow_failLast (f : Nat → Nat → Option String) (n a : Nat) (e : String)
    (h : (execSteps (f a) 0 n).2 = some e) :
    runRow f n a 0 = Ev.openCtx ::
      ((execSteps (f a) 0 n).1.map (Ev.runStep a) ++
        [Ev.shot, Ev.record ⟨false, some e, true⟩, Ev.closeCtx]) := by
  rw [runRow]
  rw [h]

/-- Unfolding `runRow` when an attempt fails with attempts remaining. -/
lemma runRow_failNext (f : Nat → Nat → Option String) (n a rem : Nat) (e : String)
    (h : (execSteps (f a) 0 n).2 = some e) :
    runRow f n a (rem + 1) =
      (Ev.openCtx :: ((execSteps (f a) 0 n).1.map (Ev.runStep a) ++ [Ev.closeCtx])) ++
        runRow f n (a + 1) rem := by
  rw [runRow]
  rw [h]

/-- Step events carry no context opens. -/
lemma openCount_stepEvs (a : Nat) (l : List Nat) :
    openCount (l.map (Ev.runStep a)) = 0 := by
  induction l with
  | nil => rfl
  | cons x xs ih => simp only [List.map_cons, openCount, List.countP_cons] at ih ⊢; simp [ih]

/-- Step events carry no context closes. -/
lemma closeCount_stepEvs (a : Nat) (l : List Nat) :
    closeCount (l.map (Ev.runStep a)) = 0 := by
  induction l with
  | nil => rfl
  | cons x xs ih => simp only [List.map_cons, closeCount, List.countP_cons] at ih ⊢; simp [ih]

/-- Step events record no results. -/
lemma recordsOf_stepEvs (a : Nat) (l : List Nat) :
    recordsOf (l.map (Ev.runStep a)) = [] := by
  induction l with
  | nil => rfl
  | cons x xs ih => simp only [List.map_cons, recordsOf, List.filterMap_cons] at ih ⊢; simp [ih]

/-- `recordsOf` distributes over concatenation. -/
lemma recordsOf_append (s t : List Ev) :
    recordsOf (s ++ t) = recordsOf s ++ recordsOf t := by
  simp [recordsOf, List.filterMap_append]

/-- `openCount` distributes over concatenation. -/
lemma openCount_append (s t : List Ev) :
    openCount (s ++ t) = openCount s + openCount t := by
  simp [openCount, List.countP_append]

/-- `closeCount` distributes over concatenation. -/
lemma closeCount_append (s t : List Ev) :
    closeCount (s ++ t) = closeCount s + closeCount t := by
  simp [closeCount, List.countP_append]

@[simp] lemma openCount_nil : openCount [] = 0 := rfl

@[simp] lemma closeCount_nil : closeCount [] = 0 := rfl

@[simp] lemma recordsOf_nil : recordsOf [] = [] := rfl

@[simp] lemma openCount_cons (e : Ev) (t : List Ev) :
    openCount (e :: t) = openCount t + (if e = Ev.openCtx then 1 else 0) := by
  simp [openCount, List.countP_cons]

@[simp] lemma closeCount_cons (e : Ev) (t : List Ev) :
    closeCount (e :: t) = closeCount t + (if e = Ev.closeCtx then 1 else 0) := by
  simp [closeCount, List.countP_cons]

@[simp] lemma recordsOf_cons (e : Ev) (t : List Ev) :
    recordsOf (e :: t) =
      (match e with | .record x => [x] | _ => []) ++ recordsOf t := by
  cases e <;> simp [recordsOf, List.filterMap_cons]

attribute [simp] openCount_append closeCount_append recordsOf_append
attribute [simp] openCount_stepEvs closeCount_stepEvs recordsOf_stepEvs

/-- Retry exhaustion: when every allowed attempt fails, the loop makes
exactly `r + 1` attempts (one context opened and closed per attempt) and
records exactly one FAIL result carrying the last attempt's error and the
failure screenshot. -/
lemma runRow_allFail (f : Nat → Nat → Option String) (n : Nat) :
    ∀ (r a : Nat), (∀ j, j ≤ r → (execSteps (f (a + j)) 0 n).2 ≠ none) →
      openCount (runRow f n a r) = r + 1 ∧
      closeCount (runRow f n a r) = r + 1 ∧
      recordsOf (runRow f n a r) = [⟨false, (execSteps (f (a + r)) 0 n).2, true⟩] := by
  intro r
  induction r with
  | zero =>
    intro a h
    obtain ⟨e, he⟩ := Option.ne_none_iff_exists'.mp (by simpa using h 0 (le_refl 0))
    rw [runRow_failLast f n a e he]
    simp [he]
  | succ rem ih =>
    intro a h
    obtain ⟨e, he⟩ := Option.ne_none_iff_exists'.mp (by simpa using h 0 (by omega))
    rw [runRow_failNext f n a rem e he]
    have hshift : ∀ j, j ≤ rem → (execSteps (f (a + 1 + j)) 0 n).2 ≠ none := by
      intro j hj
      have := h (j + 1) (by omega)
      rwa [show a + (j + 1) = a + 1 + j by omega] at this
    obtain ⟨ho, hc, hr⟩ := ih (a + 1) hshift
    rw [show a + (rem + 1) = a + 1 + rem by omega]
    simp [ho, hc, hr]

/-- First success: when the first `k` attempts fail and attempt `k` succeeds
(with attempts remaining), the loop makes exactly `k + 1` attempts and
records exactly one PASS result. -/
lemma runRow_firstSuccess (f : Nat → Nat → Option String) (n : Nat) :
    ∀ (k r a : Nat), k ≤ r →
      (∀ j, j < k → (execSteps (f (a + j)) 0 n).2 ≠ none) →
      (execSteps (f (a + k)) 0 n).2 = none →
      recordsOf (runRow f n a r) = [⟨true, none, false⟩] ∧
      openCount (runRow f n a r) = k + 1 ∧
      closeCount (runRow f n a r) = k + 1 := by
  intro k
  induction k with
  | zero =>
    intro r a _ _ hnone
    rw [runRow_succ f n a r (by simpa using hnone)]
    simp
  | succ km ih =>
    intro r a hkr hprev hnone
    obtain ⟨e, he⟩ := Option.ne_none_iff_exists'.mp (by simpa using hprev 0 (by omega))
    cases r with
    | zero => omega
    | succ rm =>
      rw [runRow_failNext f n a rm e he]
      have hshift : ∀ j, j < km → (execSteps (f (a + 1 + j)) 0 n).2 ≠ none := by
        intro j hj
        have := hprev (j + 1) (by omega)
        rwa [show a + (j + 1) = a + 1 + j by omega] at this
      have hnone2 : (execSteps (f (a + 1 + km)) 0 n).2 = none := by
        rwa [show a + (km + 1) = a + 1 + km by omega] at hnone
      obtain ⟨hr, ho, hc⟩ := ih rm (a + 1) (by omega) hshift hnone2
      simp [ho, hc, hr]

/-- Exactly one `TestResult` is recorded per run unit, whatever happens. -/
lemma recordsOf_runRow_length (f : Nat → Nat → Option String) (n : Nat) :
    ∀ (r a : Nat), (recordsOf (runRow f n a r)).length = 1 := by
  intro r
  induction r with
  | zero =>
    intro a
    cases h : (execSteps (f a) 0 n).2 with
    | none => rw [runRow_succ f n a 0 h]; simp
    | some e => rw [runRow_failLast f n a e h]; simp
  | succ rem ih =>
    intro a
    cases h : (execSteps (f a) 0 n).2 with
    | none => rw [runRow_succ f n a (rem + 1) h]; simp
    | some e => rw [runRow_failNext f n a rem e h]; simp [ih (a + 1)]

/-- One attempt's slice of a trace: a freshly opened context, inner events
that touch no context, and the matching close as the final event. -/
def CtxBlock (b : List Ev) : Prop :=
  ∃ mid, b = Ev.openCtx :: (mid ++ [Ev.closeCtx]) ∧
    openCount mid = 0 ∧ closeCount mid = 0

/-- Mid-events of every attempt shape: step events plus bookkeeping. -/
lemma ctxBlock_of_shape (a : Nat) (l : List Nat) (extra : List Ev)
    (ho : openCount extra = 0) (hc : closeCount extra = 0) :
    CtxBlock (Ev.openCtx :: (l.map (Ev.runStep a) ++ (extra ++ [Ev.closeCtx]))) := by
  refine ⟨l.map (Ev.runStep a) ++ extra, by simp, by simp [ho], by simp [hc]⟩

/-- The trace of one run unit splits into one context block per attempt:
every attempt runs in a fresh context that is closed before the next
attempt's context is opened. -/
lemma runRow_blocks (f : Nat → Nat → Option String) (n : Nat) :
    ∀ (r a : Nat), ∃ bs : List (List Ev),
      runRow f n a r = bs.flatten ∧
      bs.length = openCount (runRow f n a r) ∧
      ∀ b ∈ bs, CtxBlock b := by
  intro r
  induction r with
  | zero =>
    intro a
    cases h : (execSteps (f a) 0 n).2 with
    | none =>
      refine ⟨[runRow f n a 0], by simp, ?_, ?_⟩
      · rw [runRow_succ f n a 0 h]; simp
      · intro b hb
        rw [List.mem_singleton.mp hb, runRow_succ f n a 0 h]
        exact ctxBlock_of_shape a _ [Ev.record ⟨true, none, false⟩] (by simp) (by simp)
    | some e =>
      refine ⟨[runRow f n a 0], by simp, ?_, ?_⟩
      · rw [runRow_failLast f n a e h]; simp
      · intro b hb
        rw [List.mem_singleton.mp hb, runRow_failLast f n a e h]
        exact ctxBlock_of_shape a _ [Ev.shot, Ev.record ⟨false, some e, true⟩]
          (by simp) (by simp)
  | succ rem ih =>
    intro a
    cases h : (execSteps (f a) 0 n).2 with
    | none =>
      refine ⟨[runRow f n a (rem + 1)], by simp, ?_, ?_⟩
      · rw [runRow_succ f n a (rem + 1) h]; simp
      · intro b hb
        rw [List.mem_singleton.mp hb, runRow_succ f n a (rem + 1) h]
        exact ctxBlock_of_shape a _ [Ev.record ⟨true, none, false⟩] (by simp) (by simp)
    | some e =>
      obtain ⟨bs, hflat, hlen, hblocks⟩ := ih (a + 1)
      refine ⟨(Ev.openCtx :: ((execSteps (f a) 0 n).1.map (Ev.runStep a) ++
        [Ev.closeCtx])) :: bs, ?_, ?_, ?_⟩
      · rw [runRow_failNext f n a rem e h, hflat]
        simp
      · rw [runRow_failNext f n a rem e h]
        simp [hlen]
      · intro b hb
        rcases List.mem_cons.mp hb with hb | hb
        · subst hb
          exact ctxBlock_of_shape a _ [] (by simp) (by simp)
        · exact hblocks b hb

/-- A prefix of a concatenation is a prefix of the head or extends it. -/
lemma prefix_append_split {α : Type} {p a b : List α} (h : p <+: a ++ b) :
    p <+: a ∨ ∃ q, p = a ++ q ∧ q <+: b := by
  induction a generalizing p with
  | nil => exact Or.inr ⟨p, rfl, h⟩
  | cons x xs ih =>
    cases p with
    | nil => exact Or.inl (List.nil_prefix ..)
    | cons y ys =>
      obtain ⟨h1, h2⟩ := List.cons_prefix_cons.mp h
      rcases ih h2 with hl | ⟨q, hq, hqb⟩
      · exact Or.inl (h1 ▸ List.cons_prefix_cons.mpr ⟨rfl, hl⟩)
      · exact Or.inr ⟨q, by rw [h1, hq, List.cons_append], hqb⟩

/-- A prefix of a cons is empty or a cons of a prefix of the tail. -/
lemma prefix_cons_split {α : Type} {x : α} {p t : List α} (h : p <+: x :: t) :
    p = [] ∨ ∃ q, p = x :: q ∧ q <+: t := by
  cases p with
  | nil => exact Or.inl rfl
  | cons y ys =>
    obtain ⟨h1, h2⟩ := List.cons_prefix_cons.mp h
    exact Or.inr ⟨ys, by rw [h1], h2⟩

/-- Counting is monotone along prefixes. -/
lemma openCount_le_of_prefix {p t : List Ev} (h : p <+: t) :
    openCount p ≤ openCount t :=
  h.sublist.countP_le _

/-- Counting is monotone along prefixes. -/
lemma closeCount_le_of_prefix {p t : List Ev} (h : p <+: t) :
    closeCount p ≤ closeCount t :=
  h.sublist.countP_le _

/-- A prefix of a context-block trace never has two contexts open at once. -/
lemma prefixBalanced_of_blocks (bs : List (List Ev)) (hbs : ∀ b ∈ bs, CtxBlock b) :
    ∀ p, p <+: bs.flatten → openCount p ≤ closeCount p + 1 := by
  induction bs with
  | nil =>
    intro p hp
    rw [List.prefix_nil.mp hp]
    simp
  | cons b rest ih =>
    intro p hp
    obtain ⟨mid, hb, hmo, hmc⟩ := hbs b (List.mem_cons_self b rest)
    rw [List.flatten_cons] at hp
    rcases prefix_append_split hp with hpb | ⟨q, hq, hqrest⟩
    · subst hb
      rcases prefix_cons_split hpb with hnil | ⟨q, hq, hqtail⟩
      · simp [hnil]
      · subst hq
        have hqo : openCount q = 0 := by
          have h2 := openCount_le_of_prefix hqtail
          simp [hmo] at h2
          exact h2
        simp [hqo]
    · subst hq
      have hrest := ih (fun b2 hb2 => hbs b2 (List.mem_cons_of_mem b hb2)) q hqrest
      subst hb
      simp only [openCount_append, closeCount_append, openCount_cons, closeCount_cons,
        openCount_append, closeCount_append, hmo, hmc] at hrest ⊢
      simp
      omega

/-- A full context block opens exactly as many contexts as it closes. -/
lemma balanced_of_blocks (bs : List (List Ev)) (hbs : ∀ b ∈ bs, CtxBlock b) :
    openCount bs.flatten = closeCount bs.flatten := by
  induction bs with
  | nil => rfl
  | cons b rest ih =>
    obtain ⟨mid, hb, hmo, hmc⟩ := hbs b (List.mem_cons_self b rest)
    have hrest := ih (fun b2 hb2 => hbs b2 (List.mem_cons_of_mem b hb2))
    subst hb
    simp [hmo, hmc, hrest]

/-- Every run unit's trace is prefix-balanced and overall balanced. -/
lemma runUnit_balanced (f : Nat → Nat → Option String) (n R : Nat) :
    PrefixBalanced (runUnit f n R) ∧
    openCount (runUnit f n R) = closeCount (runUnit f n R) := by
  obtain ⟨bs, hflat, _, hblocks⟩ := runRow_blocks f n R 0
  constructor
  · intro k _
    unfold runUnit
    rw [hflat]
    exact prefixBalanced_of_blocks bs hblocks _ (List.take_prefix k _)
  · unfold runUnit
    rw [hflat]
    exact balanced_of_blocks bs hblocks

/-- The step loop starts at position `i` and executes consecutive positions. -/
lemma execSteps_idxs (g : Nat → Option String) :
    ∀ (n i : Nat), ∃ m, m ≤ n ∧ (execSteps g i n).1 = List.range' i m := by
  intro n
  induction n with
  | zero => intro i; exact ⟨0, le_refl 0, rfl⟩
  | succ nm ih =>
    intro i
    rw [execSteps]
    cases h : g i with
    | some e =>
      exact ⟨1, by omega, by simp⟩
    | none =>
      obtain ⟨m, hm, hl⟩ := ih (i + 1)
      exact ⟨m + 1, by omega, by simp [hl, List.range'_succ]⟩

@[simp] lemma stepIdxs_nil (a : Nat) : stepIdxs a [] = [] := rfl

@[simp] lemma stepIdxs_cons_open (a : Nat) (t : List Ev) :
    stepIdxs a (Ev.openCtx :: t) = stepIdxs a t := by
  simp [stepIdxs, List.filterMap_cons]

@[simp] lemma stepIdxs_cons_close (a : Nat) (t : List Ev) :
    stepIdxs a (Ev.closeCtx :: t) = stepIdxs a t := by
  simp [stepIdxs, List.filterMap_cons]

@[simp] lemma stepIdxs_cons_shot (a : Nat) (t : List Ev) :
    stepIdxs a (Ev.shot :: t) = stepIdxs a t := by
  simp [stepIdxs, List.filterMap_cons]

@[simp] lemma stepIdxs_cons_record (a : Nat) (x : RRecord) (t : List Ev) :
    stepIdxs a (Ev.record x :: t) = stepIdxs a t := by
  simp [stepIdxs, List.filterMap_cons]

@[simp] lemma stepIdxs_cons_run (a a2 i : Nat) (t : List Ev) :
    stepIdxs a (Ev.runStep a2 i :: t) =
      if a2 = a then i :: stepIdxs a t else stepIdxs a t := by
  by_cases h : a2 = a <;> simp [stepIdxs, List.filterMap_cons, h]

@[simp] lemma stepIdxs_append (a : Nat) (s t : List Ev) :
    stepIdxs a (s ++ t) = stepIdxs a s ++ stepIdxs a t := by
  simp [stepIdxs, List.filterMap_append]

/-- An attempt's own step events project to its executed positions. -/
lemma stepIdxs_stepEvs_self (a : Nat) (l : List Nat) :
    stepIdxs a (l.map (Ev.runStep a)) = l := by
  induction l with
  | nil => rfl
  | cons x xs ih => simp [ih]

/-- Another attempt's step events project to nothing. -/
lemma stepIdxs_stepEvs_ne (a a2 : Nat) (l : List Nat) (h : a2 ≠ a) :
    stepIdxs a (l.map (Ev.runStep a2)) = [] := by
  induction l with
  | nil => rfl
  | cons x xs ih => simp [ih, h]

/-- Attempts earlier than the loop's current attempt never appear. -/
lemma stepIdxs_runRow_lt (f : Nat → Nat → Option String) (n : Nat) :
    ∀ (r a0 a : Nat), a < a0 → stepIdxs a (runRow f n a0 r) = [] := by
  intro r
  induction r with
  | zero =>
    intro a0 a h
    cases hx : (execSteps (f a0) 0 n).2 with
    | none =>
      rw [runRow_succ f n a0 0 hx]
      simp [stepIdxs_stepEvs_ne a a0 _ (by omega)]
    | some e =>
      rw [runRow_failLast f n a0 e hx]
      simp [stepIdxs_stepEvs_ne a a0 _ (by omega)]
  | succ rem ih =>
    intro a0 a h
    cases hx : (execSteps (f a0) 0 n).2 with
    | none =>
      rw [runRow_succ f n a0 (rem + 1) hx]
      simp [stepIdxs_stepEvs_ne a a0 _ (by omega)]
    | some e =>
      rw [runRow_failNext f n a0 rem e hx]
      simp [stepIdxs_stepEvs_ne a a0 _ (by omega), ih (a0 + 1) a (by omega)]

/-- Every attempt of the loop executes step positions `0, 1, 2, ...`: each
retry restarts from the first step of the first template. -/
lemma stepIdxs_runRow_range (f : Nat → Nat → Option String) (n : Nat) :
    ∀ (r a0 a : Nat), ∃ m, stepIdxs a (runRow f n a0 r) = List.range m := by
  intro r
  induction r with
  | zero =>
    intro a0 a
    by_cases ha : a = a0
    · subst ha
      obtain ⟨m, _, hl⟩ := execSteps_idxs (f a) n 0
      cases hx : (execSteps (f a) 0 n).2 with
      | none =>
        rw [runRow_succ f n a 0 hx]
        exact ⟨m, by simp [stepIdxs_stepEvs_self, hl, List.range_eq_range']⟩
      | some e =>
        rw [runRow_failLast f n a e hx]
        exact ⟨m, by simp [stepIdxs_stepEvs_self, hl, List.range_eq_range']⟩
    · cases hx : (execSteps (f a0) 0 n).2 with
      | none =>
        rw [runRow_succ f n a0 0 hx]
        exact ⟨0, by simp [stepIdxs_stepEvs_ne a a0 _ (by omega)]⟩
      | some e =>
        rw [runRow_failLast f n a0 e hx]
        exact ⟨0, by simp [stepIdxs_stepEvs_ne a a0 _ (by omega)]⟩
  | succ rem ih =>
    intro a0 a
    by_cases ha : a = a0
    · subst ha
      obtain ⟨m, _, hl⟩ := execSteps_idxs (f a) n 0
      cases hx : (execSteps (f a) 0 n).2 with
      | none =>
        rw [runRow_succ f n a (rem + 1) hx]
        exact ⟨m, by simp [stepIdxs_stepEvs_self, hl, List.range_eq_range']⟩
      | some e =>
        rw [runRow_failNext f n a rem e hx]
        refine ⟨m, ?_⟩
        rw [stepIdxs_append, stepIdxs_runRow_lt f n rem (a + 1) a (by omega)]
        simp [stepIdxs_stepEvs_self, hl, List.range_eq_range']
    · cases hx : (execSteps (f a0) 0 n).2 with
      | none =>
        rw [runRow_succ f n a0 (rem + 1) hx]
        exact ⟨0, by simp [stepIdxs_stepEvs_ne a a0 _ (by omega)]⟩
      | some e =>
        rw [runRow_failNext f n a0 rem e hx]
        obtain ⟨m, hm⟩ := ih (a0 + 1) a
        exact ⟨m, by simp [stepIdxs_stepEvs_ne a a0 _ (by omega), hm]⟩

/-! ## C2 -/

/-- C2: the retry loop of a run unit records exactly one result whatever
happens; when every attempt fails it makes exactly `R + 1` attempts (one
fresh context opened and closed per attempt) and records one FAIL carrying
the final attempt's error and the failure screenshot; when the first success
is attempt `k` it stops immediately after `k + 1` attempts with one PASS; the
trace splits into per-attempt context blocks (each context closed before the
next attempt opens one); and every attempt's executed step positions are an
initial segment `0, 1, 2, ...` — a retry restarts from the first step of the
first template.  `(execSteps (f a) 0 n).2` is attempt `a`'s outcome. -/
theorem retry_loop_contract (f : Nat → Nat → Option String) (n R : Nat) :
    (recordsOf (runUnit f n R)).length = 1 ∧
    ((∀ j, j ≤ R → (execSteps (f j) 0 n).2 ≠ none) →
      openCount (runUnit f n R) = R + 1 ∧
      closeCount (runUnit f n R) = R + 1 ∧
      recordsOf (runUnit f n R) = [⟨false, (execSteps (f R) 0 n).2, true⟩]) ∧
    (∀ k, k ≤ R → (∀ j, j < k → (execSteps (f j) 0 n).2 ≠ none) →
      (execSteps (f k) 0 n).2 = none →
      recordsOf (runUnit f n R) = [⟨true, none, false⟩] ∧
      openCount (runUnit f n R) = k + 1 ∧
      closeCount (runUnit f n R) = k + 1) ∧
    (∃ bs : List (List Ev), runUnit f n R = bs.flatten ∧
      bs.length = openCount (runUnit f n R) ∧ ∀ b ∈ bs, CtxBlock b) ∧
    (∀ a, ∃ m, stepIdxs a (runUnit f n R) = List.range m) := by
  refine ⟨?_, ?_, ?_, ?_, ?_⟩
  · exact recordsOf_runRow_length f n R 0
  · intro h
    have := runRow_allFail f n R 0 (fun j hj => by simpa using h j hj)
    simpa using this
  · intro k hk hprev hnone
    have := runRow_firstSuccess f n k R 0 hk
      (fun j hj => by simpa using hprev j hj) (by simpa using hnone)
    exact ⟨this.1, this.2.1, this.2.2⟩
  · exact runRow_blocks f n R 0
  · intro a
    exact stepIdxs_runRow_range f n R 0 a

/-- Witness for `retry_loop_contract`: a unit whose single step always fails,
run with two retries (three attempts, one FAIL), and a unit that succeeds on
its second attempt (two attempts, one PASS). -/
theorem retry_loop_contract_witness :
    openCount (runUnit (fun _ _ => some "boom") 1 2) = 3 ∧
    recordsOf (runUnit (fun _ _ => some "boom") 1 2) =
      [⟨false, some "boom", true⟩] ∧
    recordsOf (runUnit (fun a _ => if a = 1 then none else some "x") 1 2) =
      [⟨true, none, false⟩] ∧
    openCount (runUnit (fun a _ => if a = 1 then none else some "x") 1 2) = 2 := by
  have h1 := (retry_loop_contract (fun _ _ => some "boom") 1 2).2.1 (by decide)
  have h2 := (retry_loop_contract (fun a _ => if a = 1 then none else some "x") 1 2).2.2.1
    1 (by decide) (by decide) (by decide)
  refine ⟨h1.1, ?_, h2.1, h2.2.1⟩
  rw [h1.2.2]
  rfl

/-! ## C4 -/

/-- One result per unit lifts to `N` results over `N` units. -/
lemma recordsOf_flatten_units (us : List (List Ev))
    (h : ∀ u ∈ us, (recordsOf u).length = 1) :
    (recordsOf us.flatten).length = us.length := by
  induction us with
  | nil => rfl
  | cons u rest ih =>
    simp only [List.flatten_cons, recordsOf_append, List.length_append,
      h u (List.mem_cons_self u rest), ih (fun u2 h2 => h u2 (List.mem_cons_of_mem u h2)),
      List.length_cons]
    omega

/-- C4: a configuration whose data source loads `N` rows fans out into
exactly `N` run units and `N` recorded results, each unit's parameter mapping
being its row merged over the defaults with the row winning on collisions
(`mergeSpread`); a failed data load produces no units, exactly one synthetic
FAIL result naming the load error, and execution after that trace continues
(its results are appended unchanged); without a data source there is exactly
one unit using the defaults. -/
theorem data_fanout (stepErr : Nat → Nat → Nat → Option String) (n R : Nat)
    (defaults : ParamMap) :
    (∀ rows : List ParamMap,
      resolveDataRows defaults (some (.ok rows)) =
        .ok (rows.map (fun row => mergeSpread defaults row)) ∧
      (∃ us : List (List Ev),
        runSingleTest stepErr n R defaults (some (.ok rows)) = us.flatten ∧
        us.length = rows.length ∧ ∀ u ∈ us, (recordsOf u).length = 1) ∧
      (recordsOf (runSingleTest stepErr n R defaults (some (.ok rows)))).length =
        rows.length ∧
      (∀ (row : ParamMap) (k : String) (v : String), row k = some v →
        mergeSpread defaults row k = some v) ∧
      (∀ (row : ParamMap) (k : String), row k = none →
        mergeSpread defaults row k = defaults k)) ∧
    (∀ e, runSingleTest stepErr n R defaults (some (.error e)) =
        [Ev.record ⟨false, some ("Failed to load data: " ++ e), false⟩] ∧
      openCount (runSingleTest stepErr n R defaults (some (.error e))) = 0 ∧
      ∀ rest : List Ev,
        recordsOf (runSingleTest stepErr n R defaults (some (.error e)) ++ rest) =
          ⟨false, some ("Failed to load data: " ++ e), false⟩ :: recordsOf rest) ∧
    runSingleTest stepErr n R defaults none = runUnit (stepErr 0) n R := by
  refine ⟨?_, ?_, ?_⟩
  · intro rows
    have hus : runSingleTest stepErr n R defaults (some (.ok rows)) =
        ((List.range (rows.map (fun row => mergeSpread defaults row)).length).map
          (fun i => runUnit (stepErr i) n R)).flatten := by
      simp [runSingleTest, resolveDataRows]
    refine ⟨rfl, ⟨(List.range (rows.map (fun row => mergeSpread defaults row)).length).map
      (fun i => runUnit (stepErr i) n R), hus, by simp, ?_⟩, ?_, ?_, ?_⟩
    · intro u hu
      obtain ⟨i, _, hi⟩ := List.mem_map.mp hu
      rw [← hi]
      exact recordsOf_runRow_length (stepErr i) n R 0
    · rw [hus]
      rw [recordsOf_flatten_units]
      · simp
      · intro u hu
        obtain ⟨i, _, hi⟩ := List.mem_map.mp hu
        rw [← hi]
        exact recordsOf_runRow_length (stepErr i) n R 0
    · intro row k v h
      simp [mergeSpread, h, Option.orElse]
    · intro row k h
      simp [mergeSpread, h, Option.orElse]
  · intro e
    refine ⟨rfl, rfl, ?_⟩
    intro rest
    simp [runSingleTest, resolveDataRows]
  · simp [runSingleTest, resolveDataRows, List.range_succ]

/-- Witness for `data_fanout`: a two-row data source over defaults, with the
row winning the `user` key and inheriting the `pass` key; and a failed load. -/
theorem data_fanout_witness :
    (recordsOf (runSingleTest (fun _ _ _ => some "boom") 1 0
      (fun k => if k = "user" then some "bob" else if k = "pass" then some "pw" else none)
      (some (.ok [fun k => if k = "user" then some "eve" else none,
                  fun _ => none])))).length = 2 ∧
    mergeSpread
      (fun k => if k = "user" then some "bob" else if k = "pass" then some "pw" else none)
      (fun k => if k = "user" then some "eve" else none) "user" = some "eve" ∧
    mergeSpread
      (fun k => if k = "user" then some "bob" else if k = "pass" then some "pw" else none)
      (fun k => if k = "user" then some "eve" else none) "pass" = some "pw" ∧
    runSingleTest (fun _ _ _ => some "boom") 1 0
      (fun k => if k = "user" then some "bob" else if k = "pass" then some "pw" else none)
      (some (.error "ENOENT")) =
      [Ev.record ⟨false, some "Failed to load data: ENOENT", false⟩] := by
  have h := data_fanout (fun _ _ _ => some "boom") 1 0
    (fun k => if k = "user" then some "bob" else if k = "pass" then some "pw" else none)
  have h1 := h.1 [fun k => if k = "user" then some "eve" else none, fun _ => none]
  refine ⟨h1.2.2.1, ?_, ?_, ?_⟩
  · exact h1.2.2.2.1 (fun k => if k = "user" then some "eve" else none) "user" "eve"
      (by simp)
  · exact h1.2.2.2.2 (fun k => if k = "user" then some "eve" else none) "pass" (by simp)
  · exact (h.2.1 "ENOENT").1

/-! ## C5 -/

/-- C5: a parameter value is replaced only when it matches the placeholder
shape exactly (leading brace pair and trailing brace pair); an `env.` key
resolves from the environment, raising on an undefined variable; any other
key resolves from the parameter mapping with the empty string substituted for
absent keys; non-placeholder values pass through unchanged; and a resolution
error aborts `executeStep` before dispatch — the result is the raised error
itself, identical under every action registry, so no browser action runs. -/
theorem placeholder_resolution (env params : ParamMap) (value : String)
    (registry : String → Option (List String → Except String Unit)) (step : StepDef) :
    ((jsStartsWith value "\x7b\x7b" && jsEndsWith value "\x7d\x7d") = false →
      resolveParam env params value = .ok value) ∧
    ((jsStartsWith value "\x7b\x7b" && jsEndsWith value "\x7d\x7d") = true →
      (jsStartsWith (jsDropRight (jsDrop value 2) 2) "env." = true →
        (env (jsDrop (jsDropRight (jsDrop value 2) 2) 4) = none →
          resolveParam env params value = .error
            ("Environment variable " ++ (jsDrop (jsDropRight (jsDrop value 2) 2) 4) ++
              " is not defined. Please set it in your .env file.")) ∧
        (∀ v, env (jsDrop (jsDropRight (jsDrop value 2) 2) 4) = some v →
          resolveParam env params value = .ok v)) ∧
      (jsStartsWith (jsDropRight (jsDrop value 2) 2) "env." = false →
        resolveParam env params value =
          .ok ((params (jsDropRight (jsDrop value 2) 2)).getD ""))) ∧
    (∀ e, resolveAll env params step.params = .error e →
      executeStep env params registry step = .error e ∧
      ∀ registry2 : String → Option (List String → Except String Unit),
        executeStep env params registry2 step = executeStep env params registry step) := by
  refine ⟨?_, ?_, ?_⟩
  · intro h
    simp [resolveParam, h]
  · intro hp
    refine ⟨fun hkey => ⟨fun hnone => ?_, fun v hv => ?_⟩, fun hkey => ?_⟩
    · simp [resolveParam, hp, hkey, hnone]
    · simp [resolveParam, hp, hkey, hv]
    · cases hk : params (jsDropRight (jsDrop value 2) 2) <;>
        simp [resolveParam, hp, hkey, hk]
  · intro e h
    refine ⟨by simp [executeStep, h], fun registry2 => by simp [executeStep, h]⟩

/-- Witness for `placeholder_resolution`: a bound key, a missing key, a
non-placeholder value, and a defined environment variable. -/
theorem placeholder_resolution_witness :
    resolveParam (fun _ => none)
      (fun k => if k = "user" then some "bob" else none) "\x7b\x7buser\x7d\x7d" =
      .ok "bob" ∧
    resolveParam (fun _ => none) (fun _ => none) "\x7b\x7bmissing\x7d\x7d" = .ok "" ∧
    resolveParam (fun _ => none) (fun _ => none) "plain" = .ok "plain" ∧
    resolveParam (fun nm => if nm = "HOST" then some "h" else none) (fun _ => none)
      "\x7b\x7benv.HOST\x7d\x7d" = .ok "h" := by
  refine ⟨?_, ?_, ?_, ?_⟩
  · rw [((placeholder_resolution (fun _ => none)
      (fun k => if k = "user" then some "bob" else none) "\x7b\x7buser\x7d\x7d"
      (fun _ => none) ⟨"goto", []⟩).2.1 (by decide)).2 (by decide)]
    rfl
  · rw [((placeholder_resolution (fun _ => none) (fun _ => none) "\x7b\x7bmissing\x7d\x7d"
      (fun _ => none) ⟨"goto", []⟩).2.1 (by decide)).2 (by decide)]
    rfl
  · exact (placeholder_resolution (fun _ => none) (fun _ => none) "plain"
      (fun _ => none) ⟨"goto", []⟩).1 (by decide)
  · exact (((placeholder_resolution (fun nm => if nm = "HOST" then some "h" else none)
      (fun _ => none) "\x7b\x7benv.HOST\x7d\x7d" (fun _ => none) ⟨"goto", []⟩).2.1
      (by decide)).1 (by decide)).2 "h" (by decide)

/-! ## C10 -/

/-- The only error `resolveParam` can raise is the undefined-environment
message (no `Step failed:` prefix is ever attached by resolution). -/
lemma resolveParam_error_shape (env params : ParamMap) (value : String) (e : String)
    (h : resolveParam env params value = .error e) :
    ∃ nm, e = "Environment variable " ++ nm ++
      " is not defined. Please set it in your .env file." := by
  by_cases h1 : (jsStartsWith value "\x7b\x7b" && jsEndsWith value "\x7d\x7d") = true
  · by_cases h2 : jsStartsWith (jsDropRight (jsDrop value 2) 2) "env." = true
    · cases henv : env (jsDrop (jsDropRight (jsDrop value 2) 2) 4) with
      | none =>
        simp [resolveParam, h1, h2, henv] at h
        exact ⟨jsDrop (jsDropRight (jsDrop value 2) 2) 4, h.symm⟩
      | some v => simp [resolveParam, h1, h2, henv] at h
    · cases hk : params (jsDropRight (jsDrop value 2) 2) <;>
        simp [resolveParam, h1, h2, hk] at h
  · simp [resolveParam, Bool.not_eq_true .. ▸ h1] at h

/-- A failed `resolveAll` fails with some parameter's resolution error. -/
lemma resolveAll_error_shape (env params : ParamMap) :
    ∀ (l : List String) (e : String), resolveAll env params l = .error e →
      ∃ nm, e = "Environment variable " ++ nm ++
        " is not defined. Please set it in your .env file." := by
  intro l
  induction l with
  | nil => intro e h; simp [resolveAll] at h
  | cons v rest ih =>
    intro e h
    cases hr : resolveParam env params v with
    | error e2 =>
      rw [resolveAll, hr] at h
      injection h with he
      subst he
      exact resolveParam_error_shape env params v e2 hr
    | ok r =>
      rw [resolveAll, hr] at h
      cases hrest : resolveAll env params rest with
      | error e2 =>
        rw [hrest] at h
        injection h with he
        subst he
        exact ih e2 hrest
      | ok rs => rw [hrest] at h; cases h

/-- C10: placeholder resolution runs before the `try` surrounding action
dispatch, so a resolution error (an undefined environment variable) escapes
`executeStep` verbatim — without the `Step failed: (action) - ` prefix that
wraps every error raised inside the `try` — and no action is consulted (the
result is the same under every registry); the scheduler's retry loop treats
it like any other step error, retrying the unit from scratch. -/
theorem resolution_error_bypasses_dispatch (env params : ParamMap)
    (registry : String → Option (List String → Except String Unit)) (step : StepDef) :
    (∀ e, resolveAll env params step.params = .error e →
      executeStep env params registry step = .error e ∧
      (∀ registry2 : String → Option (List String → Except String Unit),
        executeStep env params registry2 step = .error e) ∧
      ∃ nm, e = "Environment variable " ++ nm ++
        " is not defined. Please set it in your .env file.") ∧
    (env "API_KEY" = none → ∀ act : String,
      executeStep env params registry ⟨act, ["\x7b\x7benv.API_KEY\x7d\x7d"]⟩ =
        .error "Environment variable API_KEY is not defined. Please set it in your .env file." ∧
      jsStartsWith
        "Environment variable API_KEY is not defined. Please set it in your .env file."
        "Step failed: " = false) ∧
    (∀ rs act e, resolveAll env params step.params = .ok rs →
      registry step.action = some act → act rs = .error e →
      executeStep env params registry step =
        .error ("Step failed: " ++ step.action ++ " - " ++ e)) ∧
    (∀ (e : String) (R nsteps : Nat),
      recordsOf (runUnit (fun _ _ => some e) (nsteps + 1) R) =
        [⟨false, some e, true⟩] ∧
      openCount (runUnit (fun _ _ => some e) (nsteps + 1) R) = R + 1) := by
  refine ⟨?_, ?_, ?_, ?_⟩
  · intro e h
    exact ⟨by simp [executeStep, h], fun registry2 => by simp [executeStep, h],
      resolveAll_error_shape env params step.params e h⟩
  · intro henv act
    have hres : resolveParam env params "\x7b\x7benv.API_KEY\x7d\x7d" = .error
        "Environment variable API_KEY is not defined. Please set it in your .env file." := by
      have h1 : (jsStartsWith "\x7b\x7benv.API_KEY\x7d\x7d" "\x7b\x7b" &&
          jsEndsWith "\x7b\x7benv.API_KEY\x7d\x7d" "\x7d\x7d") = true := by decide
      have h2 : jsDropRight (jsDrop "\x7b\x7benv.API_KEY\x7d\x7d" 2) 2 = "env.API_KEY" := by
        decide
      have h3 : jsStartsWith "env.API_KEY" "env." = true := by decide
      have h4 : jsDrop "env.API_KEY" 4 = "API_KEY" := by decide
      simp [resolveParam, h1, h2, h3, h4, henv]
    refine ⟨?_, by decide⟩
    simp [executeStep, resolveAll, hres]
  · intro rs act e hok hreg herr
    simp [executeStep, hok, hreg, herr]
  · intro e R nsteps
    have hstep : ∀ j : Nat, ((execSteps ((fun _ _ => some e) j) 0 (nsteps + 1)).2 :
        Option String) = some e := by
      intro j
      rw [execSteps]
    have h := runRow_allFail (fun _ _ => some e) (nsteps + 1) R 0
      (fun j _ => by rw [hstep j]; exact Option.some_ne_none e)
    refine ⟨?_, by simpa using h.1⟩
    have := h.2.2
    rw [hstep R] at this
    simpa using this

/-- Witness for `resolution_error_bypasses_dispatch` at a concrete step whose
only parameter is an undefined environment placeholder, and a concrete
wrapped action error. -/
theorem resolution_error_bypasses_dispatch_witness :
    executeStep (fun _ => none) (fun _ => none) (fun _ => none)
      ⟨"goto", ["\x7b\x7benv.API_KEY\x7d\x7d"]⟩ =
      .error "Environment variable API_KEY is not defined. Please set it in your .env file." ∧
    executeStep (fun _ => none) (fun _ => none)
      (fun a => if a = "goto" then some (fun _ => .error "net down") else none)
      ⟨"goto", []⟩ = .error ("Step failed: " ++ "goto" ++ " - " ++ "net down") ∧
    recordsOf (runUnit (fun _ _ =>
      some "Environment variable API_KEY is not defined. Please set it in your .env file.")
      1 1) =
      [⟨false,
        some "Environment variable API_KEY is not defined. Please set it in your .env file.",
        true⟩] := by
  refine ⟨?_, ?_, ?_⟩
  · exact ((resolution_error_bypasses_dispatch (fun _ => none) (fun _ => none)
      (fun _ => none) ⟨"goto", ["\x7b\x7benv.API_KEY\x7d\x7d"]⟩).2.1 rfl "goto").1
  · exact (resolution_error_bypasses_dispatch (fun _ => none) (fun _ => none)
      (fun a => if a = "goto" then some (fun _ => .error "net down") else none)
      ⟨"goto", []⟩).2.2.1 [] (fun _ => .error "net down") "net down" rfl rfl rfl
  · exact ((resolution_error_bypasses_dispatch (fun _ => none) (fun _ => none)
      (fun _ => none) ⟨"goto", []⟩).2.2.2
      "Environment variable API_KEY is not defined. Please set it in your .env file." 1 0).1

/-! ## C3 -/

/-- `chunkAux` runs out of fuel only on the empty list. -/
lemma chunkAux_zero {α : Type} (size : Nat) (l : List α) : chunkAux size 0 l = [] := by
  cases l <;> rfl

/-- `chunkAux` with enough fuel flattens back to the input (`size ≥ 1`). -/
lemma chunkAux_flatten {α : Type} (size : Nat) (hs : 1 ≤ size) :
    ∀ (fuel : Nat) (l : List α), l.length ≤ fuel →
      (chunkAux size fuel l).flatten = l := by
  intro fuel
  induction fuel with
  | zero =>
    intro l h
    rw [List.eq_nil_of_length_eq_zero (Nat.le_zero.mp h)]
    rfl
  | succ f ih =>
    intro l h
    cases l with
    | nil => rfl
    | cons x xs =>
      rw [chunkAux, List.flatten_cons, ih _ (by simp at h ⊢; omega),
        List.take_append_drop]
      simp

/-- The batches of `chunk` flatten back to the input, in order (`size ≥ 1`). -/
lemma chunk_flatten {α : Type} (size : Nat) (hs : 1 ≤ size) (l : List α) :
    (chunk size l).flatten = l :=
  chunkAux_flatten size hs l.length l (le_refl _)

/-- Every batch of `chunkAux` holds at most `size` elements. -/
lemma chunkAux_length_le {α : Type} (size : Nat) :
    ∀ (fuel : Nat) (l : List α) (b : List α), b ∈ chunkAux size fuel l →
      b.length ≤ size := by
  intro fuel
  induction fuel with
  | zero => intro l b hb; rw [chunkAux_zero] at hb; cases hb
  | succ f ih =>
    intro l b hb
    cases l with
    | nil => cases hb
    | cons x xs =>
      rw [chunkAux] at hb
      · rcases List.mem_cons.mp hb with hb | hb
        · rw [hb, List.length_take]
          exact Nat.min_le_left size (x :: xs).length
        · exact ih _ b hb
      · simp

/-- A batch member is a member of the original list. -/
lemma chunkAux_mem_mem {α : Type} (size : Nat) :
    ∀ (fuel : Nat) (l : List α) (b : List α) (x : α),
      b ∈ chunkAux size fuel l → x ∈ b → x ∈ l := by
  intro fuel
  induction fuel with
  | zero => intro l b x hb; rw [chunkAux_zero] at hb; cases hb
  | succ f ih =>
    intro l b x hb hx
    cases l with
    | nil => cases hb
    | cons y ys =>
      rw [chunkAux] at hb
      · rcases List.mem_cons.mp hb with hb | hb
        · exact List.mem_of_mem_take (hb ▸ hx)
        · exact ((y :: ys).drop_sublist size).subset (ih _ b x hb hx)
      · simp

/-- With concurrency 1 every batch is a single configuration. -/
lemma chunkAux_one {α : Type} :
    ∀ (fuel : Nat) (l : List α), l.length ≤ fuel →
      chunkAux 1 fuel l = l.map (fun x => [x]) := by
  intro fuel
  induction fuel with
  | zero =>
    intro l h
    rw [List.eq_nil_of_length_eq_zero (Nat.le_zero.mp h)]
    rfl
  | succ f ih =>
    intro l h
    cases l with
    | nil => rfl
    | cons x xs =>
      rw [chunkAux, ih _ (by simp at h ⊢; omega)]
      · simp
      · simp

/-- `chunk 1` is the list of singleton batches. -/
lemma chunk_one {α : Type} (l : List α) : chunk 1 l = l.map (fun x => [x]) :=
  chunkAux_one l.length l (le_refl _)

/-- Unit projection of a cons. -/
lemma proj_cons (i : Nat) (e : Nat × Ev) (s : List (Nat × Ev)) :
    proj i (e :: s) = if e.1 = i then e.2 :: proj i s else proj i s := by
  by_cases h : e.1 = i <;> simp [proj, List.filter_cons, h]

/-- Event counts split as the sum of the per-unit projections' counts. -/
lemma countP_map_snd_eq_sum (q : Ev → Bool) (n : Nat) :
    ∀ s : List (Nat × Ev), (∀ e ∈ s, e.1 < n) →
      (s.map Prod.snd).countP q = ∑ i ∈ Finset.range n, (proj i s).countP q := by
  intro s
  induction s with
  | nil => intro _; simp [proj]
  | cons e t ih =>
    intro h
    have ht : ∀ x ∈ t, x.1 < n := fun x hx => h x (List.mem_cons_of_mem e hx)
    have he : e.1 < n := h e (List.mem_cons_self e t)
    have hsplit : ∀ i, (proj i (e :: t)).countP q =
        (proj i t).countP q + (if e.1 = i then (if q e.2 then 1 else 0) else 0) := by
      intro i
      rw [proj_cons]
      by_cases hh : e.1 = i <;> simp [hh, List.countP_cons]
    rw [Finset.sum_congr rfl (fun i _ => hsplit i), Finset.sum_add_distrib,
      Finset.sum_ite_eq (Finset.range n) e.1 (fun _ => if q e.2 then 1 else 0)]
    simp only [List.map_cons, List.countP_cons, ih ht, Finset.mem_range.mpr he, if_true]

/-- Projections respect prefixes. -/
lemma proj_prefix (i : Nat) {p s : List (Nat × Ev)} (h : p <+: s) :
    proj i p <+: proj i s :=
  (h.filter _).map _

/-- Inside one batch, at any point at most one context per member trace is
open, so at most `ts.length` contexts in total. -/
lemma interleaves_take_bound (s : List (Nat × Ev)) (ts : List (List Ev))
    (hI : Interleaves s ts) (hpb : ∀ t ∈ ts, PrefixBalanced t) (k : Nat) :
    openCount ((s.take k).map Prod.snd) ≤
      closeCount ((s.take k).map Prod.snd) + ts.length := by
  have hlab : ∀ e ∈ s.take k, e.1 < ts.length := fun e he => hI.1 e (List.mem_of_mem_take he)
  unfold openCount closeCount
  rw [countP_map_snd_eq_sum _ ts.length _ hlab, countP_map_snd_eq_sum _ ts.length _ hlab]
  have hterm : ∀ i ∈ Finset.range ts.length,
      (proj i (s.take k)).countP (fun e => decide (e = Ev.openCtx)) ≤
      (proj i (s.take k)).countP (fun e => decide (e = Ev.closeCtx)) + 1 := by
    intro i hi
    have hi2 := Finset.mem_range.mp hi
    have hpre : proj i (s.take k) <+: ts.getD i [] := by
      rw [← hI.2 i hi2]
      exact proj_prefix i (List.take_prefix k s)
    have hmem : ts.getD i [] ∈ ts := by
      rw [List.getD_eq_getElem ts [] hi2]
      exact List.getElem_mem hi2
    have heq : proj i (s.take k) = (ts.getD i []).take (proj i (s.take k)).length :=
      List.prefix_iff_eq_take.mp hpre
    have hb := hpb _ hmem (proj i (s.take k)).length hpre.length_le
    unfold openCount closeCount at hb
    rw [← heq] at hb
    exact hb
  calc (∑ i ∈ Finset.range ts.length,
          (proj i (s.take k)).countP (fun e => decide (e = Ev.openCtx)))
      ≤ ∑ i ∈ Finset.range ts.length,
          ((proj i (s.take k)).countP (fun e => decide (e = Ev.closeCtx)) + 1) :=
        Finset.sum_le_sum hterm
    _ = (∑ i ∈ Finset.range ts.length,
          (proj i (s.take k)).countP (fun e => decide (e = Ev.closeCtx))) + ts.length := by
        rw [Finset.sum_add_distrib]
        simp

/-- A finished batch has closed every context it opened. -/
lemma interleaves_balance (s : List (Nat × Ev)) (ts : List (List Ev))
    (hI : Interleaves s ts) (hbal : ∀ t ∈ ts, openCount t = closeCount t) :
    openCount (s.map Prod.snd) = closeCount (s.map Prod.snd) := by
  unfold openCount closeCount
  rw [countP_map_snd_eq_sum _ ts.length _ hI.1, countP_map_snd_eq_sum _ ts.length _ hI.1]
  apply Finset.sum_congr rfl
  intro i hi
  have hi2 := Finset.mem_range.mp hi
  rw [hI.2 i hi2]
  have hmem : ts.getD i [] ∈ ts := by
    rw [List.getD_eq_getElem ts [] hi2]
    exact List.getElem_mem hi2
  have := hbal _ hmem
  unfold openCount closeCount at this
  exact this

/-- The batch-sequential schedule keeps at most `K` contexts open at any
point: complete batches are balanced, and the running batch holds at most
`K` member traces, each with at most one open context. -/
lemma batched_parts_bound (K : Nat) :
    ∀ (parts : List (List (Nat × Ev))) (batches : List (List (List Ev))),
      parts.length = batches.length →
      (∀ i, i < parts.length → Interleaves (parts.getD i []) (batches.getD i [])) →
      (∀ b ∈ batches, b.length ≤ K ∧
        ∀ t ∈ b, PrefixBalanced t ∧ openCount t = closeCount t) →
      ∀ k, openCount ((parts.flatten.take k).map Prod.snd) ≤
        closeCount ((parts.flatten.take k).map Prod.snd) + K := by
  intro parts
  induction parts with
  | nil => intro batches _ _ _ k; simp
  | cons p ps ih =>
    intro batches hlen hint hprops k
    cases batches with
    | nil => simp at hlen
    | cons b bs =>
      have h0 : Interleaves p b := by
        have := hint 0 (by simp)
        simpa using this
      have hbprop := hprops b (List.mem_cons_self b bs)
      rw [List.flatten_cons, List.take_append_eq_append_take, List.map_append,
        openCount_append, closeCount_append]
      have hihyp : ∀ i, i < ps.length → Interleaves (ps.getD i []) (bs.getD i []) := by
        intro i hi
        have := hint (i + 1) (by simp; omega)
        simpa using this
      have hrest := ih bs (by simpa using hlen) hihyp
        (fun b2 h2 => hprops b2 (List.mem_cons_of_mem b h2)) (k - p.length)
      by_cases hk : k ≤ p.length
      · have hz : ps.flatten.take (k - p.length) = [] := by
          rw [Nat.sub_eq_zero_of_le hk]
          exact List.take_zero _
        rw [hz]
        simp only [List.map_nil, openCount_nil, closeCount_nil]
        have hhead := interleaves_take_bound p b h0 (fun t ht => (hbprop.2 t ht).1) k
        have hKb : b.length ≤ K := hbprop.1
        omega
      · have hfull : p.take k = p := List.take_of_length_le (by omega)
        have hbal := interleaves_balance p b h0 (fun t ht => (hbprop.2 t ht).2)
        rw [hfull]
        omega

/-- With concurrency 1 a batched run is forced to be the sequential
concatenation of the unit traces, in order. -/
lemma batched_one_sequential (units : List (List Ev)) (s : List (Nat × Ev))
    (h : IsBatchedRun 1 units s) : s.map Prod.snd = units.flatten := by
  obtain ⟨parts, hs, hlen, hint⟩ := h
  rw [chunk_one] at hlen hint
  subst hs
  rw [List.map_flatten]
  congr 1
  apply List.ext_getElem
  · simpa using hlen
  · intro i h1 h2
    have hip : i < parts.length := by simpa using h1
    have hiu : i < units.length := h2
    have hInt := hint i hip
    have hgetB : (units.map (fun x => [x])).getD i [] = [units[i]] := by
      rw [List.getD_eq_getElem _ [] (by simpa using hiu)]
      simp
    rw [hgetB] at hInt
    have hproj := hInt.2 0 (by simp)
    have hlab : ∀ e ∈ parts.getD i [], e.1 = 0 := by
      intro e he
      have hx := hInt.1 e he
      simp [Nat.lt_one_iff] at hx
      exact hx
    have hfilter : (parts.getD i []).filter (fun e => decide (e.1 = 0)) =
        parts.getD i [] :=
      List.filter_eq_self.mpr (fun e he => by simp [hlab e he])
    unfold proj at hproj
    rw [hfilter] at hproj
    rw [List.getD_eq_getElem _ [] hip] at hproj
    simpa using hproj

/-- C3: the scheduler partitions the filtered configurations into consecutive
batches of at most `K` (their concatenation is the original order); absent a
`--parallel` argument concurrency is 1, and `--parallel=auto` binds it to the
host's logical core count read at scheduler start; every run unit's trace
holds at most one open context at a time and closes every context; any
batched execution — batches of at most `K` interleaved arbitrarily, each
finishing before the next starts — never has more than `K` contexts open;
and with concurrency 1 the execution is exactly sequential. -/
theorem concurrency_batching (K cpuCount : Nat) (args : List String)
    (units : List (List Ev)) (s : List (Nat × Ev)) :
    (1 ≤ K → (chunk K units).flatten = units ∧ ∀ b ∈ chunk K units, b.length ≤ K) ∧
    ((∀ a ∈ args, jsStartsWith a "--parallel" = false) →
      getConcurrency cpuCount args = 1) ∧
    (args.find? (fun a => jsStartsWith a "--parallel") = some "--parallel=auto" →
      getConcurrency cpuCount args = (cpuCount : Int)) ∧
    (∀ (f : Nat → Nat → Option String) (n R : Nat),
      PrefixBalanced (runUnit f n R) ∧
      openCount (runUnit f n R) = closeCount (runUnit f n R)) ∧
    (1 ≤ K → IsBatchedRun K units s →
      (∀ t ∈ units, PrefixBalanced t ∧ openCount t = closeCount t) →
      ∀ k, openCount ((s.take k).map Prod.snd) ≤
        closeCount ((s.take k).map Prod.snd) + K) ∧
    (IsBatchedRun 1 units s → s.map Prod.snd = units.flatten) := by
  refine ⟨?_, ?_, ?_, ?_, ?_, batched_one_sequential units s⟩
  · intro hK
    exact ⟨chunk_flatten K hK units, fun b hb => chunkAux_length_le K _ units b hb⟩
  · intro h
    unfold getConcurrency
    rw [List.find?_eq_none.mpr (fun a ha => by simp [h a ha])]
  · intro h
    unfold getConcurrency
    rw [h]
    have hsplit : (jsSplit "--parallel=auto" '=')[1]? = some "auto" := by decide
    simp [hsplit]
  · intro f n R
    exact runUnit_balanced f n R
  · intro hK hrun hprops k
    obtain ⟨parts, hs, hlen, hint⟩ := hrun
    subst hs
    refine batched_parts_bound K parts (chunk K units) ?_ ?_ ?_ k
    · exact hlen
    · intro i hi
      exact hint i hi
    · intro b hb
      refine ⟨chunkAux_length_le K _ units b hb, ?_⟩
      intro t ht
      exact hprops t (chunkAux_mem_mem K _ units b t hb ht)

/-- Witness for `concurrency_batching`: three one-context units at
concurrency 2 — the first batch interleaves units 0 and 1, the second runs
unit 2 alone — plus the parsing facts and the forced sequential order at
concurrency 1. -/
theorem concurrency_batching_witness :
    (chunk 2 [[Ev.openCtx, Ev.closeCtx], [Ev.openCtx, Ev.closeCtx],
      [Ev.openCtx, Ev.closeCtx]]).flatten =
      [[Ev.openCtx, Ev.closeCtx], [Ev.openCtx, Ev.closeCtx],
       [Ev.openCtx, Ev.closeCtx]] ∧
    getConcurrency 8 ["--tags", "smoke"] = 1 ∧
    getConcurrency 8 ["--parallel=auto"] = 8 ∧
    (∀ k, openCount ((([(0, Ev.openCtx), (1, Ev.openCtx), (0, Ev.closeCtx),
        (1, Ev.closeCtx), (0, Ev.openCtx), (0, Ev.closeCtx)] :
        List (Nat × Ev)).take k).map Prod.snd) ≤
      closeCount ((([(0, Ev.openCtx), (1, Ev.openCtx), (0, Ev.closeCtx),
        (1, Ev.closeCtx), (0, Ev.openCtx), (0, Ev.closeCtx)] :
        List (Nat × Ev)).take k).map Prod.snd) + 2) ∧
    ([(0, Ev.openCtx), (0, Ev.closeCtx)] : List (Nat × Ev)).map Prod.snd =
      ([[Ev.openCtx, Ev.closeCtx]] : List (List Ev)).flatten := by
  refine ⟨?_, ?_, ?_, ?_, ?_⟩
  · exact ((concurrency_batching 2 8 ["--tags", "smoke"]
      [[Ev.openCtx, Ev.closeCtx], [Ev.openCtx, Ev.closeCtx], [Ev.openCtx, Ev.closeCtx]]
      []).1 (by decide)).1
  · exact (concurrency_batching 2 8 ["--tags", "smoke"] [] []).2.1 (by decide)
  · exact (concurrency_batching 2 8 ["--parallel=auto"] [] []).2.2.1 (by decide)
  · exact (concurrency_batching 2 8 []
      [[Ev.openCtx, Ev.closeCtx], [Ev.openCtx, Ev.closeCtx], [Ev.openCtx, Ev.closeCtx]]
      [(0, Ev.openCtx), (1, Ev.openCtx), (0, Ev.closeCtx), (1, Ev.closeCtx),
       (0, Ev.openCtx), (0, Ev.closeCtx)]).2.2.2.2.1 (by decide)
      ⟨[[(0, Ev.openCtx), (1, Ev.openCtx), (0, Ev.closeCtx), (1, Ev.closeCtx)],
        [(0, Ev.openCtx), (0, Ev.closeCtx)]], rfl, by decide, by decide⟩
      (by decide)
  · exact (concurrency_batching 1 8 [] [[Ev.openCtx, Ev.closeCtx]]
      [(0, Ev.openCtx), (0, Ev.closeCtx)]).2.2.2.2.2
      ⟨[[(0, Ev.openCtx), (0, Ev.closeCtx)]], rfl, by decide, by decide⟩

end UIRunner
